import Mathlib

/-!
# Verification development for the `compiler6` sources

Shallow embedding of `symtable.c` (chained hash table of symbols) and of the
code generator of `astree.c`, followed by the theorems that settle the
properties stated about them.

Conventions of the embedding:

* A C string is the list of its bytes before the terminator, each a natural
  number 0..255. The value of a byte read as plain `char` depends on the build
  host: the flag `charSigned` of `hash` and of the operations that call it says
  whether plain `char` is signed.
* An `int` is 32 bits wide. Where the code adds to or multiplies an `int`
  (`h += str[i]` in `hash`, `lid++` in `getUniqueLabelID`, `4+4*(1+node->ival)`
  in the code generator) the result is brought into the range of `int` by
  `toInt32`.
* A pointer into a bucket chain (`Symbol*`) is the chain that starts at the
  pointed symbol: `[]` is the null pointer, `s :: next` is a symbol `s` whose
  `next` field is `next`.
* The table (`Symbol**`, `TABLESIZE` entries) is a function from bucket indices
  to chains.
* Reading through a null pointer, and reading or writing `table[i]` for an
  index `i` outside the bucket array, has no defined result: such a call
  returns `none`.
-/

namespace Compiler

/-! ## Data model of `symtable.c` -/

/-- The number of buckets (`#define TABLESIZE 97`). -/
def TABLESIZE : Nat := 97

/-- Modelled from the spec: the value-type tag declared in `symtable.h`
(`Int | Long | String | ReturnValue`), with the enumerator names used in
`astree.c`. -/
inductive DataType where
  | T_INT
  | T_LONG
  | T_STRING
  | T_RETURNVAL
deriving DecidableEq, Repr

/-- Modelled from the spec: the variable-kind tag declared in `symtable.h`
(`Global | GlobalArray | Local | Param`), with the enumerator names used in
`astree.c`. -/
inductive VariableKind where
  | V_GLOBAL
  | V_GLARRAY
  | V_LOCAL
  | V_PARAM
deriving DecidableEq, Repr

/-- Modelled from the spec: the `Symbol` record declared in `symtable.h`, with
the fields that `addSymbol` assigns. The `next` field is the tail of the chain
the symbol sits in. -/
structure Symbol where
  name : List Nat
  scopeLevel : Int
  type : DataType
  size : Nat
  offset : Int
  varKind : VariableKind
deriving DecidableEq, Repr

/-- The bucket array: one chain per index `0 .. TABLESIZE-1`. -/
abbrev SymbolTable := Fin TABLESIZE → List Symbol

/-- Modelled from the spec: the cursor `SymbolTableIter` declared in
`symtable.h` (current bucket index, last returned symbol). -/
structure SymbolTableIter where
  index : Int
  lastsym : List Symbol
deriving DecidableEq, Repr

/-! ## Operations of `symtable.c` -/

/-- The value of `str[i]` for a byte `b` (0..255) of the string: the byte itself
where plain `char` is unsigned, and `b - 256` for `b ≥ 128` where plain `char`
is signed. -/
def charValue (charSigned : Bool) (b : Nat) : Int :=
  if charSigned = true ∧ 128 ≤ b then (b : Int) - 256 else (b : Int)

/-- A value brought into the range of a 32-bit `int`. -/
def toInt32 (x : Int) : Int :=
  (x + 2147483648) % 4294967296 - 2147483648

/-- The loop of `hash` on the bytes of the string, `h` being a 32-bit `int`:
`for (i=0; i < strlen(str); i++) h += str[i];`. -/
def hashLoop (charSigned : Bool) : List Nat → Int → Int
  | [], h => h
  | b :: rest, h => hashLoop charSigned rest (toInt32 (h + charValue charSigned b))

/-- The function `hash` on the bytes of the string; `%` of C truncates toward
zero. The flag says whether plain `char` is signed on the build host. -/
def hash (charSigned : Bool) (str : List Nat) : Int :=
  Int.tmod (hashLoop charSigned str 0) (TABLESIZE : Int)

/-- Stated from the specification, not from the code: the bucket index of a
name as the sum of its character codes modulo the table size. -/
def hashSpec (str : List Nat) : Nat :=
  str.sum % TABLESIZE

/-- The function `newSymbolTable`: every entry is set to null. -/
def newSymbolTable : SymbolTable :=
  fun _ => []

/-- The array read `table[i]` for an `int` index; `none` for an index outside
`0 .. TABLESIZE-1`, where the read has no defined result. -/
def tableAt (table : SymbolTable) (i : Int) : Option (List Symbol) :=
  if h : i.toNat < TABLESIZE then
    if 0 ≤ i then some (table ⟨i.toNat, h⟩) else none
  else none

/-- The function `addSymbol`. The two flags say whether `malloc` and `strdup`
succeed; the result is the return code and the table after the call. With both
allocations done, `newSymbol->next = table[index]` reads the entry `index` and
`table[index] = newSymbol` writes it: for an index outside the array neither
has a defined result, and the call is `none`. -/
def addSymbol (charSigned : Bool) (table : SymbolTable) (name : List Nat) (scopeLevel : Int)
    (type : DataType) (size : Nat) (offset : Int) (varKind : VariableKind)
    (mallocOk strdupOk : Bool) : Option (Int × SymbolTable) :=
  let index := hash charSigned name
  if !mallocOk then some (-1, table)
  else if !strdupOk then some (-1, table)
  else
    match tableAt table index with
    | none => none
    | some head =>
      let newSymbol : Symbol :=
        { name := name, scopeLevel := scopeLevel, type := type, size := size,
          offset := offset, varKind := varKind }
      some (0, fun i => if (i.val : Int) = index then newSymbol :: head else table i)

/-- The loop of `findSymbol`: walk the chain, stop at the first name match. -/
def findChain (name : List Nat) : List Symbol → Option Symbol
  | [] => none
  | current :: next =>
    if current.name = name then some current else findChain name next

/-- The function `findSymbol`. The result `some none` is the null pointer
(not found), `some (some s)` a pointer to the symbol `s`; the call is `none`
when `table[index]` is read outside the array. -/
def findSymbol (charSigned : Bool) (table : SymbolTable) (name : List Nat) :
    Option (Option Symbol) :=
  let index := hash charSigned name
  match tableAt table index with
  | none => none
  | some current => some (findChain name current)

/-- The loop of `iterSymbolTable`:
`while (!cur && iter->index < TABLESIZE-1) { iter->index++; cur = table[iter->index]; }`.
The first argument bounds the number of rounds. -/
def iterScan (table : SymbolTable) : Nat → Int → List Symbol → Option (Int × List Symbol)
  | fuel, index, cur =>
    if cur = [] ∧ index < (TABLESIZE : Int) - 1 then
      match fuel with
      | 0 => none
      | fuel + 1 =>
        match tableAt table (index + 1) with
        | none => none
        | some c => iterScan table fuel (index + 1) c
    else some (index, cur)

/-- The function `iterSymbolTable`: returns the pointer `cur` and the updated
cursor. The loop gets `TABLESIZE - 1 - index` rounds, which is the number of
times its guard `index < TABLESIZE-1` can hold. -/
def iterSymbolTable (table : SymbolTable) (_scopeLevel : Int) (iter : SymbolTableIter) :
    Option (List Symbol × SymbolTableIter) :=
  let start : Option (Int × List Symbol) :=
    if iter.index = -1 then
      (tableAt table 0).map (fun c => ((0 : Int), c))
    else
      match iter.lastsym with
      | [] => none
      | _ :: next => some (iter.index, next)
  match start with
  | none => none
  | some (index, cur) =>
    match iterScan table ((TABLESIZE : Int) - 1 - index).toNat index cur with
    | none => none
    | some (index', cur') => some (cur', { index := index', lastsym := cur' })

/-- The caller's loop of `test.c`:
`while ((symbol = iterSymbolTable(table,0,&iterator)) != NULL) ...`.
Returns the symbols yielded and the number of calls made. -/
def iterateAll (table : SymbolTable) : Nat → SymbolTableIter → Option (List Symbol × Nat)
  | 0, _ => none
  | fuel + 1, iter =>
    match iterSymbolTable table 0 iter with
    | none => none
    | some ([], _) => some ([], 1)
    | some (symbol :: _, iter') =>
      (iterateAll table fuel iter').map (fun r => (symbol :: r.1, r.2 + 1))

/-- The function `freeAllSymbols`: every chain is released and its entry
set to null. -/
def freeAllSymbols (_table : SymbolTable) : SymbolTable :=
  fun _ => []

/-- The inner loop of `delScopeLevel` on one chain: a symbol with
`cur->scopeLevel >= scopeLevel` is unlinked, any other is kept. -/
def delChain (scopeLevel : Int) : List Symbol → List Symbol
  | [] => []
  | cur :: next =>
    if cur.scopeLevel ≥ scopeLevel then delChain scopeLevel next
    else cur :: delChain scopeLevel next

/-- The function `delScopeLevel`: return code and table after the call. -/
def delScopeLevel (table : SymbolTable) (scopeLevel : Int) : Int × SymbolTable :=
  (0, fun i => delChain scopeLevel (table i))

/-! ## Derived notions used to state the properties -/

/-- The chain of bucket `i`, empty beyond the array. -/
def bucketAt (table : SymbolTable) (i : Nat) : List Symbol :=
  if h : i < TABLESIZE then table ⟨i, h⟩ else []

/-- The chains of buckets `k, k+1, ..., k+n-1`, concatenated. -/
def chainsFrom (table : SymbolTable) (k n : Nat) : List Symbol :=
  ((List.range' k n).map (bucketAt table)).flatten

/-- All symbols of the table: the concatenation of the bucket chains in
index order. -/
def allSymbols (table : SymbolTable) : List Symbol :=
  chainsFrom table 0 TABLESIZE

/-- The number of symbols stored. -/
def symbolCount (table : SymbolTable) : Nat :=
  (allSymbols table).length

/-- The arguments of one call of `addSymbol`, with the outcome of its two
allocations. -/
structure AddCall where
  name : List Nat
  scopeLevel : Int
  type : DataType
  size : Nat
  offset : Int
  varKind : VariableKind
  mallocOk : Bool
  strdupOk : Bool
deriving DecidableEq, Repr

/-- The table after the call of `addSymbol` described by `c`; `none` when the
call has no defined result. -/
def applyAdd (charSigned : Bool) (table : SymbolTable) (c : AddCall) : Option SymbolTable :=
  match addSymbol charSigned table c.name c.scopeLevel c.type c.size c.offset c.varKind
      c.mallocOk c.strdupOk with
  | none => none
  | some r => some r.2

/-- One call of an operation that changes a table. -/
inductive TableOp where
  | add (c : AddCall)
  | del (scopeLevel : Int)
  | free
deriving DecidableEq, Repr

/-- The table after one operation. -/
def applyOp (charSigned : Bool) (table : SymbolTable) : TableOp → Option SymbolTable
  | .add c => applyAdd charSigned table c
  | .del scopeLevel => some (delScopeLevel table scopeLevel).2
  | .free => some (freeAllSymbols table)

/-- The table after a sequence of operations, first to last; `none` once a
call has no defined result. -/
def runOps (charSigned : Bool) (table : SymbolTable) : List TableOp → Option SymbolTable
  | [] => some table
  | op :: rest =>
    match applyOp charSigned table op with
    | none => none
    | some table' => runOps charSigned table' rest

/-- The insertion loop of `main` in `test.c`:
`addSymbol(table, argv[i], 0, T_INT, 0, 0)` for each argument, every
allocation succeeding. The call in `test.c` passes no `varKind`; it is a
parameter here. -/
def insertNames (charSigned : Bool) (table : SymbolTable) (varKind : VariableKind) :
    List (List Nat) → Option SymbolTable
  | [] => some table
  | name :: rest =>
    match addSymbol charSigned table name 0 .T_INT 0 0 varKind true true with
    | none => none
    | some r => insertNames charSigned r.2 varKind rest

/-- Every symbol sits in the bucket its name hashes to. -/
def BucketsOk (charSigned : Bool) (table : SymbolTable) : Prop :=
  ∀ (i : Fin TABLESIZE) (s : Symbol), s ∈ table i → hash charSigned s.name = (i.val : Int)

/-- Every chain lists its symbols by scope level, highest first. -/
def ChainsSorted (table : SymbolTable) : Prop :=
  ∀ (i : Fin TABLESIZE), (table i).Pairwise (fun a b => b.scopeLevel ≤ a.scopeLevel)

/-- Four sample calls of `addSymbol`, all succeeding: `x` at scope level 0,
`y` at level 0, `x` at level 1 and `x` at level 2. -/
def sampleAdds : List AddCall :=
  [ ⟨[120], 0, .T_INT, 0, 0, .V_GLOBAL, true, true⟩,
    ⟨[121], 0, .T_INT, 0, 4, .V_GLOBAL, true, true⟩,
    ⟨[120], 1, .T_INT, 0, 0, .V_PARAM, true, true⟩,
    ⟨[120], 2, .T_INT, 0, 1, .V_LOCAL, true, true⟩ ]

/-- The table after the calls of `sampleAdds` on a new table (the names are
7-bit, so the signedness of `char` plays no part): the three symbols `x` in
bucket 23, newest first, and `y` in bucket 24. -/
def sampleTable : SymbolTable :=
  (runOps false newSymbolTable (sampleAdds.map TableOp.add)).getD newSymbolTable

/-- The name `\xE9`: one byte with code 233 (`é` in Latin-1). -/
def nameE9 : List Nat := [233]

/-- The name `\xC3\xA9`: the two bytes of `é` in UTF-8. -/
def nameC3A9 : List Nat := [195, 169]

/-! ## Data model of `astree.h` -/

/-- The node discriminant `ASTNodeType`. -/
inductive ASTNodeType where
  | AST_PROGRAM
  | AST_VARDECL
  | AST_FUNCTION
  | AST_SBLOCK
  | AST_FUNCALL
  | AST_ASSIGNMENT
  | AST_WHILE
  | AST_IFTHEN
  | AST_EXPRESSION
  | AST_VARREF
  | AST_CONSTANT
  | AST_ARGUMENT
  | AST_RELEXPR
deriving DecidableEq, Repr

/-- The type `ASTNode*`: `null` is the null pointer, `node` a pointer to a
record with the fields of `struct astnode_s` (`child[0..2]` as three fields).
The text `strval` is `none` when the pointer is null. -/
inductive ASTNode where
  | null : ASTNode
  | node (type : ASTNodeType) (valType : DataType) (varKind : VariableKind)
      (ival : Int) (strval : Option String) (strNeedsFreed : Int)
      (next : ASTNode) (child0 child1 child2 : ASTNode) : ASTNode
deriving DecidableEq, Repr

/-! ## Text output helpers of `astree.c` -/

/-- The constant `INDENTAMT`. -/
def INDENTAMT : Int := 3

/-- The function `levelPrefix`: `level*INDENTAMT` blanks, at most 126, none
for a level that is not positive. -/
def levelPrefix (level : Int) : String :=
  String.mk (List.replicate (min (level * INDENTAMT).toNat 126) ' ')

/-- The conversion `%d` of `fprintf`. -/
def fmtD (i : Int) : String :=
  toString i

/-- The conversion `%c` of `fprintf`: the character whose code is the
argument converted to `unsigned char`. -/
def fmtC (i : Int) : String :=
  String.singleton (Char.ofNat (i % 256).toNat)

/-- The conversion `%s` of `fprintf`; a null pointer is printed as `(null)`,
as the C library of the build host does. -/
def fmtS (s : Option String) : String :=
  match s with
  | some t => t
  | none => "(null)"

/-- Modelled from the spec: the integer value of a `DataType` enumerator (what
`%d` prints for `node->valType`), numbered in the order the spec lists the
tags, as `symtable.h` is expected to declare them. -/
def DataType.toInt : DataType → Int
  | .T_INT => 0
  | .T_LONG => 1
  | .T_STRING => 2
  | .T_RETURNVAL => 3

/-! ## Label allocator and code generator of `astree.c` -/

/-- The first value of the counter `static int lid = 100`. -/
def lidStart : Int := 100

/-- The function `getUniqueLabelID`: `return lid++;`, with the static counter
passed in and out. The result is the returned identifier and the counter
after the call; the counter is a 32-bit `int`, so the increment is taken in
the range of `int`. -/
def getUniqueLabelID (lid : Int) : Int × Int :=
  (lid, toInt32 (lid + 1))

/-- The counter after `k` calls of `getUniqueLabelID` in a run. -/
def lidAfter : Nat → Int
  | 0 => lidStart
  | k + 1 => (getUniqueLabelID (lidAfter k)).2

/-- The identifier returned by call number `k` (counting from 0) of
`getUniqueLabelID` in a run. -/
def labelOfCall (k : Nat) : Int :=
  (getUniqueLabelID (lidAfter k)).1

/-- The expression `4+4*(1+node->ival)` that the `AST_VARDECL`, `AST_ASSIGNMENT`
and `AST_VARREF` cases print as the offset from `fp` of slot `ival`; the sum,
the product and the outer sum are each taken in the range of a 32-bit `int`. -/
def frameOffset (ival : Int) : Int :=
  toInt32 (4 + toInt32 (4 * toInt32 (1 + ival)))

/-- The `int` value of a character constant such as `'='`. -/
def charCode (c : Char) : Int :=
  (c.toNat : Int)

/-- The branch mnemonic chosen by the `switch (node->ival)` of the
`AST_RELEXPR` case. -/
def relopInstr (ival : Int) : String :=
  if ival = charCode '=' then "beq"
  else if ival = charCode '!' then "bne"
  else if ival = charCode '<' then "blt"
  else if ival = charCode '>' then "bgt"
  else "unknown relop"

/-- The text of the fixed library routines printed at the end of the
`AST_PROGRAM` case. -/
def libraryText : String :=
  "\n\n#\n# some library functions\n#\n\n# Print a null-terminated string: arg: a0 == string address"
    ++ "\nprintStr:\n\tli\ta7, 4\n\tecall\n\tret\n"
    ++ "\n# Print a decimal integer: arg: a0 == value"
    ++ "\nprintInt:\n\tli\ta7, 1\n\tecall\n\tret\n\n"
    ++ "\n# Read in a decimal integer: return: a0 == value"
    ++ "\nreadInt:\n\tli\ta7, 5\n\tecall\n\tret"

/-- The function `genCodeFromASTree`. The text written to `out` is returned
as a string; the static label counter is passed in (third argument) and
returned with the text. -/
def genCodeFromASTree : ASTNode → Int → Int → String × Int
  | .null, _, lid => ("", lid)
  | .node type valType varKind ival strval _ next child0 child1 child2, level, lid =>
    let body : String × Int :=
      match type with
      | .AST_PROGRAM =>
        let r0 := genCodeFromASTree child0 (level + 1) lid
        let r2 := genCodeFromASTree child2 (level + 1) r0.2
        let r1 := genCodeFromASTree child1 (level + 1) r2.2
        (r0.1 ++ "\t.text\n\nprogram:\n" ++ r2.1
          ++ "\n\tli\ta0, 0\n\tli\ta7, 93\n\tecall"
          ++ levelPrefix (level + 1) ++ "\n\n#--functions--\n" ++ r1.1
          ++ libraryText, r1.2)
      | .AST_VARDECL =>
        if varKind ≠ .V_GLARRAY ∧ varKind = .V_GLOBAL then
          (fmtS strval ++ ":\t.word\t0\n", lid)
        else if varKind = .V_GLARRAY then
          (fmtS strval ++ ":\t.space\t" ++ fmtD ival ++ "\n", lid)
        else if valType = .T_INT ∧ varKind ≠ .V_GLOBAL then
          ("\n\tsw\ta" ++ fmtD ival ++ ", " ++ fmtD (frameOffset ival) ++ "(fp)", lid)
        else if valType = .T_LONG then
          (" type long\n", lid)
        else if valType = .T_STRING ∧ varKind ≠ .V_GLOBAL then
          ("\n\tsw\ta" ++ fmtD ival ++ ", " ++ fmtD (frameOffset ival) ++ "(fp)", lid)
        else
          (" type unknown (" ++ fmtD valType.toInt ++ ")\n", lid)
      | .AST_FUNCTION =>
        let r1 := genCodeFromASTree child1 (level + 1) lid
        let r2 := genCodeFromASTree child2 (level + 1) r1.2
        let r0 := genCodeFromASTree child0 (level + 1) r2.2
        ("\n" ++ fmtS strval ++ ":\n"
          ++ "\taddi\tsp, sp, -128\n\tsw\tra, 0(sp)\n\tsw\tfp, 4(sp)\n\tmv\tfp, sp\n"
          ++ r1.1 ++ r2.1 ++ r0.1
          ++ "\n\tmv\tsp, fp\n\tlw\tra, 0(sp)\n\tlw\tfp, 4(fp)\n\taddi\tsp, sp, 128\n\tret",
          r0.2)
      | .AST_FUNCALL =>
        let r0 := genCodeFromASTree child0 (level + 1) lid
        (r0.1 ++ "\n\tjal\t" ++ fmtS strval, r0.2)
      | .AST_ARGUMENT =>
        let r0 := genCodeFromASTree child0 (level + 1) lid
        (r0.1 ++ "\n\tmv\ta" ++ fmtD ival ++ ", t0", r0.2)
      | .AST_ASSIGNMENT =>
        let r0 := genCodeFromASTree child0 (level + 1) lid
        if varKind = .V_GLARRAY then
          let r1 := genCodeFromASTree child1 0 r0.2
          (r0.1 ++ "\n\taddi\tsp, sp, -4\n\tsw\tt0, 0(sp)\n" ++ r1.1
            ++ "\n\tslli\tt0, t0, 2"
            ++ "\n\tla\tt1, " ++ fmtS strval
            ++ "\n\tadd\tt1, t1, t0"
            ++ "\n\tlw\tt0, 0(sp)"
            ++ "\n\taddi\tsp, sp, 4"
            ++ "\n\tsw\tt0, 0(t1)"
            ++ "\n# array ref\n", r1.2)
        else if varKind = .V_GLOBAL then
          (r0.1 ++ "\n\tsw\tt0, " ++ fmtS strval ++ ", t1", r0.2)
        else if varKind = .V_PARAM ∨ varKind = .V_LOCAL then
          (r0.1 ++ "\n\tsw\ta" ++ fmtD ival ++ ", " ++ fmtD (frameOffset ival) ++ "(fp)", r0.2)
        else
          (r0.1 ++ "Unknown variable kind assignment\n", r0.2)
      | .AST_EXPRESSION =>
        let r0 := genCodeFromASTree child0 (level + 1) lid
        let r1 := genCodeFromASTree child1 (level + 1) r0.2
        (r0.1 ++ "\n\taddi\tsp, sp, -4\n\tsw\tt0, 0(sp)\t" ++ r1.1
          ++ (if ival = charCode '-' then "\n\tlw\tt1, 0(sp)\n\taddi\tsp, sp, 4\n\tsub\tt0, t1, t0"
              else if ival = charCode '+' then "\n\tlw\tt1, 0(sp)\n\taddi\tsp, sp, 4\n\tadd\tt0, t0, t1"
              else "Unknown Constant\n"), r1.2)
      | .AST_RELEXPR =>
        let r0 := genCodeFromASTree child0 (level + 1) lid
        let r1 := genCodeFromASTree child1 (level + 1) r0.2
        ("\n#Relational Expression (op " ++ fmtD ival ++ "," ++ fmtC ival ++ ")" ++ r0.1
          ++ "\n\taddi\tsp, sp, -4\n\tsw\tt0, 0(sp)\n" ++ r1.1
          ++ "\n\tlw\tt1, 0(sp)\n\taddi\tsp, sp, 4\n\t" ++ relopInstr ival
          ++ "\tt1, t0, .LL" ++ fmtD level ++ "\n", r1.2)
      | .AST_WHILE =>
        let i1 := getUniqueLabelID lid
        let i2 := getUniqueLabelID i1.2
        let id1 := i1.1
        let id2 := i2.1
        let r1 := genCodeFromASTree child1 (level + 1) i2.2
        let r0 := genCodeFromASTree child0 id1 r1.2
        ("\n#While loop"
          ++ "\n\tb\t.LL" ++ fmtD id2 ++ "\n"
          ++ "\n#--body--"
          ++ "\n.LL" ++ fmtD id1 ++ ":\n"
          ++ r1.1
          ++ "\n.LL" ++ fmtD id2 ++ ":\n"
          ++ r0.1, r0.2)
      | .AST_IFTHEN =>
        let i1 := getUniqueLabelID lid
        let i2 := getUniqueLabelID i1.2
        let id1 := i1.1
        let id2 := i2.1
        let r0 := genCodeFromASTree child0 id1 i2.2
        let r2 := genCodeFromASTree child2 (level + 1) r0.2
        let r1 := genCodeFromASTree child1 (level + 1) r2.2
        ("\n#If then"
          ++ r0.1
          ++ "\n#--elsepart comes first--"
          ++ r2.1
          ++ "\n\tb\t.LL" ++ fmtD id2 ++ "\n"
          ++ "\n#--end elsepart--"
          ++ "\n#--ifpart--"
          ++ "\n.LL" ++ fmtD id1 ++ ":\n"
          ++ r1.1
          ++ "\n#--end ifpart--"
          ++ "\n.LL" ++ fmtD id2 ++ ":\n", r1.2)
      | .AST_VARREF =>
        let scalar : String :=
          if varKind = .V_GLOBAL then "\n\tlw\tt0, " ++ fmtS strval
          else if varKind = .V_PARAM ∨ varKind = .V_LOCAL then
            "\n\tlw\tt0, " ++ fmtD (frameOffset ival) ++ "(fp)"
          else ""
        if varKind = .V_GLARRAY then
          let r0 := genCodeFromASTree child0 (level + 1) lid
          let r0' := genCodeFromASTree child0 (level + 1) r0.2
          (scalar ++ r0.1
            ++ "\n\tslli\tt0, t0, 2"
            ++ "\n\tla\tt1, " ++ fmtS strval
            ++ "\n\tlw\tt0, 0(t1)"
            ++ "\n# array ref\n"
            ++ r0'.1, r0'.2)
        else (scalar, lid)
      | .AST_CONSTANT =>
        if valType = .T_INT then ("\n\tli\tt0, " ++ fmtD ival ++ "\n", lid)
        else if valType = .T_STRING then ("\n\tla\tt0, .SC" ++ fmtD ival, lid)
        else if valType = .T_RETURNVAL then ("\n\tmv\tt0, a0", lid)
        else ("Unknown Constant\n", lid)
      | .AST_SBLOCK => ("Unknown AST node!\n", lid)
    let rn := genCodeFromASTree next (level + 1) body.2
    (levelPrefix level ++ body.1 ++ rn.1, rn.2)

/-! ## Release of a tree (`freeASTree` of `astree.c`) -/

/-- A link from a node record to another: a child slot or `next`. -/
inductive Link where
  | child0
  | child1
  | child2
  | next
deriving DecidableEq, Repr

/-- One call of `free`: on the node record reached by the given links from the
node `freeASTree` was called on, or on the text `strval` of that record. -/
inductive Freed where
  | node (path : List Link)
  | text (path : List Link)
deriving DecidableEq, Repr

/-- The same released object, named from one link further up. -/
def Freed.under (l : Link) : Freed → Freed
  | .node path => .node (l :: path)
  | .text path => .text (l :: path)

/-- The function `freeASTree`: the calls of `free` it makes, in order. The
recursive calls on `child[0]`, `child[1]`, `child[2]` and `next` come first,
then `free(node->strval)` under `node->strNeedsFreed && node->strval`, then
`free(node)`. -/
def freeASTree : ASTNode → List Freed
  | .null => []
  | .node _ _ _ _ strval strNeedsFreed next child0 child1 child2 =>
    (freeASTree child0).map (Freed.under .child0)
      ++ (freeASTree child1).map (Freed.under .child1)
      ++ (freeASTree child2).map (Freed.under .child2)
      ++ (freeASTree next).map (Freed.under .next)
      ++ (if strNeedsFreed ≠ 0 ∧ strval.isSome = true then [Freed.text []] else [])
      ++ [Freed.node []]

/-- The pointer found by following the links from a node; null once a link
is null. -/
def nodeAt : ASTNode → List Link → ASTNode
  | n, [] => n
  | .null, _ :: _ => .null
  | .node _ _ _ _ _ _ next child0 child1 child2, l :: path =>
    match l with
    | .child0 => nodeAt child0 path
    | .child1 => nodeAt child1 path
    | .child2 => nodeAt child2 path
    | .next => nodeAt next path

/-- Whether a pointer is a node record. -/
def isNode : ASTNode → Bool
  | .null => false
  | .node _ _ _ _ _ _ _ _ _ _ => true

/-- Whether a pointer is a node record whose `strNeedsFreed` is non-zero and
whose `strval` is not null. -/
def ownsText : ASTNode → Bool
  | .null => false
  | .node _ _ _ _ strval strNeedsFreed _ _ _ _ =>
    decide (strNeedsFreed ≠ 0) && strval.isSome

/-- Whether a pointer is a node record whose `strNeedsFreed` is zero. -/
def flagZero : ASTNode → Bool
  | .null => false
  | .node _ _ _ _ _ strNeedsFreed _ _ _ _ => decide (strNeedsFreed = 0)

/-! ## Searching the emitted text -/

/-- The number of positions of a text at which the pattern starts. -/
def countSub (pat : List Char) : List Char → Nat
  | [] => 0
  | c :: rest => (if pat.isPrefixOf (c :: rest) then 1 else 0) + countSub pat rest

/-- The number of occurrences of a pattern in a text. -/
def occurrences (pat text : String) : Nat :=
  countSub pat.data text.data

/-- A push of the accumulator: `addi sp, sp, -4` then `sw t0, 0(sp)`. -/
def pushText : String :=
  "addi\tsp, sp, -4\n\tsw\tt0, 0(sp)"

/-- A pop into `t1`: `lw t1, 0(sp)` then `addi sp, sp, 4`. -/
def popText : String :=
  "lw\tt1, 0(sp)\n\taddi\tsp, sp, 4"

/-- No end piece of the text, shorter than the pattern, is a start of the
pattern: an occurrence that starts inside the text ends inside it. -/
def noStraddle (pat : List Char) : List Char → Bool
  | [] => true
  | c :: rest =>
    !(decide ((c :: rest).length < pat.length) && (c :: rest).isPrefixOf pat)
      && noStraddle pat rest

/-! ## Argument lists of a call -/

/-- The fields of an `AST_ARGUMENT` node other than `ival` and `next`;
`expr` is `child[0]`. -/
structure ArgFields where
  valType : DataType
  varKind : VariableKind
  strval : Option String
  strNeedsFreed : Int
  expr : ASTNode
  child1 : ASTNode
  child2 : ASTNode
deriving DecidableEq, Repr

/-- The sibling chain of `AST_ARGUMENT` nodes with the given fields, in list
order, and integer payloads `j`, `j+1`, ... -/
def argChain : List ArgFields → Int → ASTNode
  | [], _ => .null
  | a :: rest, j =>
    .node .AST_ARGUMENT a.valType a.varKind j a.strval a.strNeedsFreed
      (argChain rest (j + 1)) a.expr a.child1 a.child2

/-- The text the call lowering is stated to write for an argument list, with
the label counter it leaves: for each argument in list order the indentation,
the code of its expression and `mv a<j>, t0`. The first argument is the list,
then the payload of its first node, the second argument of the generator for
that node, and the label counter. -/
def argsTextSpec : List ArgFields → Int → Int → Int → String × Int
  | [], _, _, lid => ("", lid)
  | a :: rest, j, level, lid =>
    let e := genCodeFromASTree a.expr (level + 1) lid
    let r := argsTextSpec rest (j + 1) (level + 1) e.2
    (levelPrefix level ++ e.1 ++ "\n\tmv\ta" ++ fmtD j ++ ", t0" ++ r.1, r.2)

/-! ## Sample trees -/

/-- The function `newASTNode` when its allocation succeeds. -/
def newASTNode (type : ASTNodeType) : ASTNode :=
  .node type .T_INT .V_GLOBAL 0 none 0 .null .null .null .null

/-- An integer constant node. -/
def intConst (i : Int) : ASTNode :=
  .node .AST_CONSTANT .T_INT .V_GLOBAL i none 0 .null .null .null .null

/-- The call `f(1, 2)`. -/
def sampleCall : ASTNode :=
  .node .AST_FUNCALL .T_INT .V_GLOBAL 0 (some "f") 0 .null
    (argChain [⟨.T_INT, .V_GLOBAL, none, 0, intConst 1, .null, .null⟩,
               ⟨.T_INT, .V_GLOBAL, none, 0, intConst 2, .null, .null⟩] 0)
    .null .null

/-- The expression `1 * 2`: an `AST_EXPRESSION` node whose operator code is
not one the generator knows. -/
def sampleProduct : ASTNode :=
  .node .AST_EXPRESSION .T_INT .V_GLOBAL (charCode '*') none 0 .null
    (intConst 1) (intConst 2) .null

/-- An `AST_EXPRESSION` node with operator `*` and no operands. -/
def sampleBareProduct : ASTNode :=
  .node .AST_EXPRESSION .T_INT .V_GLOBAL (charCode '*') none 0 .null .null .null .null

/-- A function `f` laid out as `astree.h` says: `child[0]` declares the
parameter `p` (slot 0), `child[1]` is the body, the call `g()`, and there are
no locals. -/
def sampleFunction : ASTNode :=
  .node .AST_FUNCTION .T_INT .V_GLOBAL 0 (some "f") 0 .null
    (.node .AST_VARDECL .T_INT .V_PARAM 0 (some "p") 0 .null .null .null .null)
    (.node .AST_FUNCALL .T_INT .V_GLOBAL 0 (some "g") 0 .null .null .null .null)
    .null

/-- The declaration of a global array `a` of 10 elements. -/
def sampleArrayDecl : ASTNode :=
  .node .AST_VARDECL .T_INT .V_GLARRAY 10 (some "a") 0 .null .null .null .null

/-- The array element read `a[2]`. -/
def sampleArrayRef : ASTNode :=
  .node .AST_VARREF .T_INT .V_GLARRAY 0 (some "a") 0 .null (intConst 2) .null .null

/-- A statement block node, for which the generator has no case. -/
def sampleBlock : ASTNode :=
  newASTNode .AST_SBLOCK

/-- The empty program: an `AST_PROGRAM` node with no children. -/
def sampleEmptyProgram : ASTNode :=
  newASTNode .AST_PROGRAM

/-- A tree of three nodes: a call `f(x)` whose name is owned by the node and
whose argument is a variable reference with a borrowed name. -/
def sampleOwnedTree : ASTNode :=
  .node .AST_FUNCALL .T_INT .V_GLOBAL 0 (some "f") 1 .null
    (.node .AST_ARGUMENT .T_INT .V_GLOBAL 0 none 0 .null
      (.node .AST_VARREF .T_INT .V_GLOBAL 0 (some "x") 0 .null .null .null .null)
      .null .null)
    .null .null

/-- The ways the generator prints a call, a jump or a conditional branch
(`jal`, `b`, and the four mnemonics of the `AST_RELEXPR` case), and the start
`.LL` of every label it allocates. -/
def jumpPatterns : List String :=
  ["\tjal\t", "\tb\t", "\tbeq\t", "\tbne\t", "\tblt\t", "\tbgt\t", ".LL"]

/-- A relational node `1 * 2`: an `AST_RELEXPR` node whose operator code is
not one the generator knows. -/
def sampleBadRelation : ASTNode :=
  .node .AST_RELEXPR .T_INT .V_GLOBAL (charCode '*') none 0 .null
    (intConst 1) (intConst 2) .null

/-- A statement block followed by the statement `g()`. -/
def sampleBlockThenCall : ASTNode :=
  .node .AST_SBLOCK .T_INT .V_GLOBAL 0 none 0
    (.node .AST_FUNCALL .T_INT .V_GLOBAL 0 (some "g") 0 .null .null .null .null)
    .null .null .null

/-! ## Labels written by the code generator -/

/-- A piece of the text the generator writes: `plain s` is the text `s`;
`guard c s` is the character `c` followed by the text `s`; `label n true` is
the label line `.LL<n>:` with its line end, and `label n false` the operand
`.LL<n>` of a jump or branch with the line end that follows it. -/
inductive Item where
  | plain (s : List Char)
  | guard (c : Char) (s : List Char)
  | label (n : Int) (isDef : Bool)
deriving DecidableEq, Repr

/-- The characters of a piece. -/
def Item.text : Item → List Char
  | .plain s => s
  | .guard c s => c :: s
  | .label n isDef =>
    '.' :: 'L' :: 'L' :: ((fmtD n).data ++ (if isDef then [':', '\n'] else ['\n']))

/-- The assignment `x = 5` to the local variable of slot 0. -/
def sampleLocalAssign : ASTNode :=
  .node .AST_ASSIGNMENT .T_INT .V_LOCAL 0 (some "x") 0 .null (intConst 5) .null .null

/-- The instruction `addi sp, sp, -4` that starts a push. -/
def pushInstr : String :=
  "addi\tsp, sp, -4"

/-- The instruction `addi sp, sp, 4` that ends a pop. -/
def popInstr : String :=
  "addi\tsp, sp, 4"

/-- Whether a pointer is an expression tree: an Int constant, a reference to a
variable that is not an array, or an `AST_EXPRESSION` node with operator `+` or
`-` whose two operands are expression trees; no node has a sibling, and the
printed name of a variable holds no tab character. -/
def isExprTree : ASTNode → Bool
  | .null => false
  | .node type valType varKind ival strval _ next child0 child1 _ =>
    decide (next = .null) &&
      (match type with
       | .AST_CONSTANT => decide (valType = .T_INT)
       | .AST_VARREF =>
         decide (varKind ≠ .V_GLARRAY)
           && (fmtS strval).data.all (fun c => decide (c ≠ '\t'))
       | .AST_EXPRESSION =>
         decide (ival = charCode '+' ∨ ival = charCode '-')
           && isExprTree child0 && isExprTree child1
       | _ => false)

/-- The number of `AST_EXPRESSION` nodes of an expression tree. -/
def exprNodes : ASTNode → Nat
  | .null => 0
  | .node type _ _ _ _ _ _ child0 child1 _ =>
    match type with
    | .AST_EXPRESSION => exprNodes child0 + exprNodes child1 + 1
    | _ => 0

/-- The expression `(a - 1) + x`, with `a` a global variable and `x` the local
variable of slot 2. -/
def sampleExpr : ASTNode :=
  .node .AST_EXPRESSION .T_INT .V_GLOBAL (charCode '+') none 0 .null
    (.node .AST_EXPRESSION .T_INT .V_GLOBAL (charCode '-') none 0 .null
      (.node .AST_VARREF .T_INT .V_GLOBAL 0 (some "a") 0 .null .null .null .null)
      (intConst 1) .null)
    (.node .AST_VARREF .T_INT .V_LOCAL 2 (some "x") 0 .null .null .null .null)
    .null

/-- Whether a text consists of blanks only, or of blanks followed by a line
end and anything: the form of the text that follows a piece the generator has
written. -/
def quiet : List Char → Bool
  | [] => true
  | c :: rest => c == '\n' || (c == ' ' && quiet rest)

/-- Whether the last character of a text is not a blank (false for the empty
text). -/
def endsNonBlank : List Char → Bool
  | [] => false
  | [c] => !(c == ' ')
  | _ :: c :: rest => endsNonBlank (c :: rest)

/-! ## Basic facts about the symbol table operations -/

theorem tableAt_fin (table : SymbolTable) (ix : Fin TABLESIZE) :
    tableAt table (ix.val : Int) = some (table ix) := by
  have h := ix.isLt
  simp [tableAt, h]

theorem tableAt_some (table : SymbolTable) (i : Int) (c : List Symbol)
    (h : tableAt table i = some c) :
    ∃ ix : Fin TABLESIZE, (ix.val : Int) = i ∧ c = table ix := by
  unfold tableAt at h
  split_ifs at h with h1 h2
  refine ⟨⟨i.toNat, h1⟩, ?_, ?_⟩
  · simp [Int.toNat_of_nonneg h2]
  · exact (Option.some.inj h).symm

theorem tableAt_neg (table : SymbolTable) (i : Int) (h : i < 0) : tableAt table i = none := by
  unfold tableAt
  split_ifs with h1 h2
  · omega
  · rfl
  · rfl

theorem tableAt_isSome (table : SymbolTable) (i : Int) (h0 : 0 ≤ i) (h1 : i < 97) :
    ∃ ix : Fin TABLESIZE, (ix.val : Int) = i ∧ tableAt table i = some (table ix) := by
  have hlt : i.toNat < TABLESIZE := by
    simp only [TABLESIZE]; omega
  refine ⟨⟨i.toNat, hlt⟩, by simp [Int.toNat_of_nonneg h0], ?_⟩
  simp [tableAt, hlt, h0]

theorem hash_lt (charSigned : Bool) (str : List Nat) : hash charSigned str < 97 := by
  unfold hash
  exact Int.tmod_lt_of_pos _ (by decide)

theorem fin_eq_of_cast (ix i : Fin TABLESIZE) (index : Int) (h : (ix.val : Int) = index) :
    ((i.val : Int) = index) ↔ i = ix := by
  constructor
  · intro hi
    apply Fin.ext
    omega
  · intro hi
    rw [hi, h]

/-- What a call of `addSymbol` that returns has done: either an allocation
failed, the code is -1 and the table is as before; or both succeeded, the code
is 0, `hash(name)` is the index of a bucket and the new symbol has been put in
front of the chain of that bucket. -/
theorem addSymbol_some (charSigned : Bool) (table table' : SymbolTable) (name : List Nat)
    (scopeLevel : Int) (type : DataType) (size : Nat) (offset : Int) (varKind : VariableKind)
    (mallocOk strdupOk : Bool) (r : Int)
    (h : addSymbol charSigned table name scopeLevel type size offset varKind mallocOk strdupOk
      = some (r, table')) :
    (r = -1 ∧ table' = table ∧ (mallocOk = false ∨ strdupOk = false)) ∨
    (r = 0 ∧ mallocOk = true ∧ strdupOk = true ∧
      ∃ ix : Fin TABLESIZE, (ix.val : Int) = hash charSigned name ∧
        table' = fun i => if i = ix then
          (⟨name, scopeLevel, type, size, offset, varKind⟩ : Symbol) :: table i else table i) := by
  cases mallocOk
  · simp only [addSymbol, Bool.not_false, if_true, Option.some.injEq, Prod.mk.injEq] at h
    exact Or.inl ⟨h.1.symm, h.2.symm, Or.inl rfl⟩
  · cases strdupOk
    · simp only [addSymbol, Bool.not_true, Bool.not_false, if_true, Bool.false_eq_true, if_false,
        Option.some.injEq, Prod.mk.injEq] at h
      exact Or.inl ⟨h.1.symm, h.2.symm, Or.inr rfl⟩
    · simp only [addSymbol, Bool.not_true, Bool.false_eq_true, if_false] at h
      cases hc : tableAt table (hash charSigned name) with
      | none => rw [hc] at h; exact absurd h (by simp)
      | some head =>
        rw [hc] at h
        obtain ⟨ix, hix, hhead⟩ := tableAt_some table _ head hc
        simp only [Option.some.injEq, Prod.mk.injEq] at h
        refine Or.inr ⟨h.1.symm, rfl, rfl, ix, hix, ?_⟩
        rw [← h.2]
        funext i
        by_cases hi : i = ix
        · rw [if_pos hi, if_pos ((fin_eq_of_cast ix i _ hix).mpr hi), hhead, hi]
        · rw [if_neg hi, if_neg (fun hc' => hi ((fin_eq_of_cast ix i _ hix).mp hc'))]

/-- With both allocations succeeding, `addSymbol` returns exactly when
`hash(name)` is not negative, and then it returns 0. -/
theorem addSymbol_defined (charSigned : Bool) (table : SymbolTable) (name : List Nat)
    (scopeLevel : Int) (type : DataType) (size : Nat) (offset : Int) (varKind : VariableKind) :
    (0 ≤ hash charSigned name →
      ∃ table', addSymbol charSigned table name scopeLevel type size offset varKind true true
        = some (0, table')) ∧
    (hash charSigned name < 0 →
      addSymbol charSigned table name scopeLevel type size offset varKind true true = none) := by
  constructor
  · intro h0
    obtain ⟨ix, _, hix⟩ := tableAt_isSome table _ h0 (hash_lt charSigned name)
    simp only [addSymbol, Bool.not_true, Bool.false_eq_true, if_false, hix]
    exact ⟨_, rfl⟩
  · intro hneg
    simp only [addSymbol, Bool.not_true, Bool.false_eq_true, if_false, tableAt_neg table _ hneg]

theorem findSymbol_at (charSigned : Bool) (table : SymbolTable) (name : List Nat)
    (ix : Fin TABLESIZE) (hix : (ix.val : Int) = hash charSigned name) :
    findSymbol charSigned table name = some (findChain name (table ix)) := by
  simp only [findSymbol, ← hix, tableAt_fin]

theorem findSymbol_some (charSigned : Bool) (table : SymbolTable) (name : List Nat)
    (r : Option Symbol) (h : findSymbol charSigned table name = some r) :
    ∃ ix : Fin TABLESIZE, (ix.val : Int) = hash charSigned name ∧
      r = findChain name (table ix) := by
  unfold findSymbol at h
  cases hc : tableAt table (hash charSigned name) with
  | none => simp only [hc] at h; exact absurd h (by simp)
  | some cur =>
    simp only [hc, Option.some.injEq] at h
    obtain ⟨ix, hix, hcur⟩ := tableAt_some table _ cur hc
    exact ⟨ix, hix, by rw [← h, hcur]⟩

theorem findSymbol_neg (charSigned : Bool) (table : SymbolTable) (name : List Nat)
    (h : hash charSigned name < 0) : findSymbol charSigned table name = none := by
  simp only [findSymbol, tableAt_neg table _ h]

theorem findSymbol_defined (charSigned : Bool) (table : SymbolTable) (name : List Nat)
    (h : 0 ≤ hash charSigned name) :
    ∃ ix : Fin TABLESIZE, (ix.val : Int) = hash charSigned name ∧
      findSymbol charSigned table name = some (findChain name (table ix)) := by
  obtain ⟨ix, hix, _⟩ := tableAt_isSome table _ h (hash_lt charSigned name)
  exact ⟨ix, hix, findSymbol_at charSigned table name ix hix⟩

theorem delChain_eq_filter (scopeLevel : Int) (chain : List Symbol) :
    delChain scopeLevel chain = chain.filter (fun s => decide (s.scopeLevel < scopeLevel)) := by
  induction chain with
  | nil => rfl
  | cons cur next ih =>
    by_cases h : cur.scopeLevel ≥ scopeLevel
    · have h' : ¬ cur.scopeLevel < scopeLevel := not_lt.mpr h
      simp [delChain, h, h', ih]
    · have h' : cur.scopeLevel < scopeLevel := not_le.mp h
      simp [delChain, h, h', ih]

theorem findChain_eq_none_iff (name : List Nat) (chain : List Symbol) :
    findChain name chain = none ↔ ∀ s ∈ chain, s.name ≠ name := by
  induction chain with
  | nil => simp [findChain]
  | cons cur next ih =>
    by_cases h : cur.name = name
    · simp [findChain, h]
    · simp [findChain, h, ih]

theorem findChain_some (name : List Nat) (chain : List Symbol) (s : Symbol)
    (h : findChain name chain = some s) : s ∈ chain ∧ s.name = name := by
  induction chain with
  | nil => simp [findChain] at h
  | cons cur next ih =>
    by_cases hc : cur.name = name
    · simp [findChain, hc] at h
      subst h
      exact ⟨List.mem_cons_self _ _, hc⟩
    · simp [findChain, hc] at h
      exact ⟨List.mem_cons_of_mem _ (ih h).1, (ih h).2⟩

/-! ## The function `hash` on names of 7-bit characters -/

theorem toInt32_of_range (x : Int) (h0 : 0 ≤ x) (h1 : x < 2147483648) : toInt32 x = x := by
  unfold toInt32
  rw [Int.emod_eq_of_lt (by omega) (by omega)]
  omega

theorem hashLoop_eq (charSigned : Bool) (str : List Nat) :
    ∀ h : Nat, (∀ b ∈ str, b < 128) → h + str.sum < 2147483648 →
      hashLoop charSigned str (h : Int) = ((h + str.sum : Nat) : Int) := by
  induction str with
  | nil => intro h _ _; simp [hashLoop]
  | cons b rest ih =>
    intro h hb hsum
    have hb0 : b < 128 := hb b (List.mem_cons_self _ _)
    rw [List.sum_cons] at hsum
    have hval : charValue charSigned b = (b : Int) := by
      unfold charValue
      rw [if_neg (by omega)]
    have hstep : toInt32 ((h : Int) + charValue charSigned b) = ((h + b : Nat) : Int) := by
      rw [hval, toInt32_of_range _ (by omega) (by omega)]
      push_cast
      rfl
    rw [hashLoop, hstep, ih (h + b) (fun c hc => hb c (List.mem_cons_of_mem _ hc)) (by omega),
      List.sum_cons]
    congr 1
    omega

/-- On a name of 7-bit characters whose codes add up to less than 2^31 the
function `hash` returns, whatever the signedness of `char`, the sum of the
codes modulo 97, which is the index of a bucket. -/
theorem hash_eq_hashSpec (charSigned : Bool) (str : List Nat) (h7 : ∀ b ∈ str, b < 128)
    (hsum : str.sum < 2147483648) :
    hash charSigned str = ((hashSpec str : Nat) : Int) ∧ 0 ≤ hash charSigned str := by
  have h := hashLoop_eq charSigned str 0 h7 (by omega)
  simp only [Nat.cast_zero, Nat.zero_add] at h
  have he : hash charSigned str = ((hashSpec str : Nat) : Int) := by
    rw [hash, h, hashSpec]
    exact (Int.ofNat_tmod _ _).symm
  exact ⟨he, by rw [he]; exact Int.natCast_nonneg _⟩

/-! ## Iteration over the whole table -/

theorem chainsFrom_zero (table : SymbolTable) (k : Nat) : chainsFrom table k 0 = [] := by
  simp [chainsFrom]

theorem chainsFrom_succ (table : SymbolTable) (k n : Nat) :
    chainsFrom table k (n + 1) = bucketAt table k ++ chainsFrom table (k + 1) n := by
  simp [chainsFrom, List.range'_succ]

theorem tableAt_natCast (table : SymbolTable) (k : Nat) (hk : k < TABLESIZE) :
    tableAt table (k : Int) = some (bucketAt table k) := by
  simp [tableAt, bucketAt, hk]

theorem iterScan_spec (table : SymbolTable) :
    ∀ (n k : Nat) (cur : List Symbol), k + n = 96 →
      ∃ (k' : Nat) (cur' : List Symbol),
        iterScan table n (k : Int) cur = some ((k' : Int), cur') ∧ k' ≤ 96 ∧
        cur' ++ chainsFrom table (k' + 1) (96 - k') = cur ++ chainsFrom table (k + 1) n ∧
        (cur' = [] → k' = 96) := by
  intro n
  induction n with
  | zero =>
    intro k cur hk
    have hk96 : k = 96 := by omega
    subst hk96
    refine ⟨96, cur, ?_, le_refl _, rfl, fun _ => rfl⟩
    unfold iterScan
    simp [TABLESIZE]
  | succ n ih =>
    intro k cur hk
    by_cases hcur : cur = []
    · subst hcur
      have hlt : (k : Int) < (TABLESIZE : Int) - 1 := by
        simp only [TABLESIZE]; omega
      have hk1 : k + 1 < TABLESIZE := by
        simp only [TABLESIZE]; omega
      obtain ⟨k', cur', h1, h2, h3, h4⟩ := ih (k + 1) (bucketAt table (k + 1)) (by omega)
      refine ⟨k', cur', ?_, h2, ?_, h4⟩
      · have htab : tableAt table ((k : Int) + 1) = some (bucketAt table (k + 1)) := by
          have := tableAt_natCast table (k + 1) hk1
          simpa using this
        unfold iterScan
        simp only [true_and, hlt, if_true, htab]
        simpa using h1
      · rw [h3, chainsFrom_succ]
        simp
    · refine ⟨k, cur, ?_, by omega, ?_, fun h => absurd h hcur⟩
      · unfold iterScan
        simp [hcur]
      · have : 96 - k = n + 1 := by omega
        rw [this]

theorem iterSymbolTable_next (table : SymbolTable) (scopeLevel : Int) (k : Nat) (hk : k ≤ 96)
    (s : Symbol) (next : List Symbol) :
    ∃ (k' : Nat) (cur' : List Symbol),
      iterSymbolTable table scopeLevel ⟨(k : Int), s :: next⟩
        = some (cur', ⟨(k' : Int), cur'⟩) ∧ k' ≤ 96 ∧
      cur' ++ chainsFrom table (k' + 1) (96 - k') = next ++ chainsFrom table (k + 1) (96 - k) ∧
      (cur' = [] → k' = 96) := by
  obtain ⟨k', cur', h1, h2, h3, h4⟩ := iterScan_spec table (96 - k) k next (by omega)
  refine ⟨k', cur', ?_, h2, h3, h4⟩
  have hne : ¬ ((k : Int) = -1) := by omega
  have hfuel : ((TABLESIZE : Int) - 1 - (k : Int)).toNat = 96 - k := by
    simp only [TABLESIZE]; omega
  simp [iterSymbolTable, hne, hfuel, h1]

theorem iterSymbolTable_first (table : SymbolTable) (scopeLevel : Int) (lastsym : List Symbol) :
    ∃ (k' : Nat) (cur' : List Symbol),
      iterSymbolTable table scopeLevel ⟨-1, lastsym⟩
        = some (cur', ⟨(k' : Int), cur'⟩) ∧ k' ≤ 96 ∧
      cur' ++ chainsFrom table (k' + 1) (96 - k') = allSymbols table ∧
      (cur' = [] → k' = 96) := by
  obtain ⟨k', cur', h1, h2, h3, h4⟩ := iterScan_spec table 96 0 (bucketAt table 0) (by omega)
  refine ⟨k', cur', ?_, h2, ?_, h4⟩
  · have htab : tableAt table 0 = some (bucketAt table 0) := by
      have := tableAt_natCast table 0 (by decide)
      simpa using this
    have hfuel : TABLESIZE - 1 = 96 := rfl
    have h1' : iterScan table 96 0 (bucketAt table 0) = some ((k' : Int), cur') := by
      simpa using h1
    simp [iterSymbolTable, htab, hfuel, h1']
  · rw [h3]
    exact (chainsFrom_succ table 0 96).symm

theorem iterateAll_from (table : SymbolTable) :
    ∀ (fuel k : Nat) (s : Symbol) (next : List Symbol), k ≤ 96 →
      (next ++ chainsFrom table (k + 1) (96 - k)).length + 1 ≤ fuel →
      iterateAll table fuel ⟨(k : Int), s :: next⟩
        = some (next ++ chainsFrom table (k + 1) (96 - k),
                (next ++ chainsFrom table (k + 1) (96 - k)).length + 1) := by
  intro fuel
  induction fuel with
  | zero => intro k s next _ hf; omega
  | succ fuel ih =>
    intro k s next hk hf
    obtain ⟨k', cur', h1, h2, h3, h4⟩ := iterSymbolTable_next table 0 k hk s next
    cases cur' with
    | nil =>
      have hk' : k' = 96 := h4 rfl
      subst hk'
      have hnil : next ++ chainsFrom table (k + 1) (96 - k) = [] := by
        rw [← h3]; simp [chainsFrom_zero]
      rw [hnil]
      simp [iterateAll, h1]
    | cons s' n' =>
      have hlen : (next ++ chainsFrom table (k + 1) (96 - k)).length
          = (n' ++ chainsFrom table (k' + 1) (96 - k')).length + 1 := by
        rw [← h3]; simp
      have hrec := ih k' s' n' h2 (by omega)
      rw [← h3]
      simp only [iterateAll, h1, hrec]
      simp

/-- Iteration from a cursor with `index = -1` and enough fuel returns, in
this order, every symbol of the table, after one call more than there are
symbols. -/
theorem iterateAll_start (table : SymbolTable) (lastsym : List Symbol) (fuel : Nat)
    (hf : symbolCount table + 1 ≤ fuel) :
    iterateAll table fuel ⟨-1, lastsym⟩ = some (allSymbols table, symbolCount table + 1) := by
  obtain ⟨k', cur', h1, h2, h3, h4⟩ := iterSymbolTable_first table 0 lastsym
  cases fuel with
  | zero => omega
  | succ fuel =>
    cases cur' with
    | nil =>
      have hk' : k' = 96 := h4 rfl
      subst hk'
      have hnil : allSymbols table = [] := by
        rw [← h3]; simp [chainsFrom_zero]
      simp [iterateAll, h1, symbolCount, hnil]
    | cons s' n' =>
      have hlen : symbolCount table
          = (n' ++ chainsFrom table (k' + 1) (96 - k')).length + 1 := by
        rw [symbolCount, ← h3]; simp
      have hrec := iterateAll_from table fuel k' s' n' h2 (by omega)
      simp only [iterateAll, h1, hrec]
      rw [hlen, ← h3]
      simp

/-! ## Contents of the table: membership, deletion, counting -/

theorem mem_chainsFrom (table : SymbolTable) (s : Symbol) (k n : Nat) :
    s ∈ chainsFrom table k n ↔ ∃ i, k ≤ i ∧ i < k + n ∧ s ∈ bucketAt table i := by
  simp only [chainsFrom, List.mem_flatten, List.mem_map, List.mem_range'_1]
  constructor
  · rintro ⟨l, ⟨i, ⟨h1, h2⟩, rfl⟩, hs⟩
    exact ⟨i, h1, h2, hs⟩
  · rintro ⟨i, h1, h2, hs⟩
    exact ⟨_, ⟨i, ⟨h1, h2⟩, rfl⟩, hs⟩

theorem mem_allSymbols (table : SymbolTable) (s : Symbol) :
    s ∈ allSymbols table ↔ ∃ i : Fin TABLESIZE, s ∈ table i := by
  rw [allSymbols, mem_chainsFrom]
  constructor
  · rintro ⟨i, _, h2, hs⟩
    have hi : i < TABLESIZE := by omega
    refine ⟨⟨i, hi⟩, ?_⟩
    simpa [bucketAt, hi] using hs
  · rintro ⟨i, hs⟩
    refine ⟨i.val, Nat.zero_le _, by omega, ?_⟩
    simpa [bucketAt, i.isLt] using hs

theorem bucketAt_delScopeLevel (table : SymbolTable) (scopeLevel : Int) (i : Nat) :
    bucketAt (delScopeLevel table scopeLevel).2 i = delChain scopeLevel (bucketAt table i) := by
  by_cases hi : i < TABLESIZE
  · simp [bucketAt, hi, delScopeLevel]
  · simp [bucketAt, hi, delChain]

theorem chainsFrom_delScopeLevel (table : SymbolTable) (scopeLevel : Int) :
    ∀ (n k : Nat), chainsFrom (delScopeLevel table scopeLevel).2 k n
      = (chainsFrom table k n).filter (fun s => decide (s.scopeLevel < scopeLevel)) := by
  intro n
  induction n with
  | zero => intro k; simp [chainsFrom_zero]
  | succ n ih =>
    intro k
    rw [chainsFrom_succ, chainsFrom_succ, List.filter_append, ih, bucketAt_delScopeLevel,
      delChain_eq_filter]

theorem allSymbols_delScopeLevel (table : SymbolTable) (scopeLevel : Int) :
    allSymbols (delScopeLevel table scopeLevel).2
      = (allSymbols table).filter (fun s => decide (s.scopeLevel < scopeLevel)) :=
  chainsFrom_delScopeLevel table scopeLevel TABLESIZE 0

theorem symbolCount_delScopeLevel_le (table : SymbolTable) (scopeLevel : Int) :
    symbolCount (delScopeLevel table scopeLevel).2 ≤ symbolCount table := by
  rw [symbolCount, symbolCount, allSymbols_delScopeLevel]
  exact List.length_filter_le _ _

theorem bucketAt_update (table : SymbolTable) (index : Fin TABLESIZE) (s : Symbol) (i : Nat) :
    bucketAt (fun j => if j = index then s :: table j else table j) i
      = if i = index.val then s :: bucketAt table i else bucketAt table i := by
  by_cases hi : i < TABLESIZE
  · by_cases he : i = index.val
    · subst he
      simp [bucketAt]
    · have hne : (⟨i, hi⟩ : Fin TABLESIZE) ≠ index := fun h => he (congrArg Fin.val h)
      simp [bucketAt, hi, he, hne]
  · have he : i ≠ index.val := fun h => hi (h ▸ index.isLt)
    simp [bucketAt, hi, he]

theorem length_chainsFrom_update (table : SymbolTable) (index : Fin TABLESIZE) (s : Symbol) :
    ∀ (n k : Nat),
      (chainsFrom (fun j => if j = index then s :: table j else table j) k n).length
        = (chainsFrom table k n).length
          + (if k ≤ index.val ∧ index.val < k + n then 1 else 0) := by
  intro n
  induction n with
  | zero =>
    intro k
    have : ¬ (k ≤ index.val ∧ index.val < k + 0) := by omega
    rw [if_neg this]
    simp [chainsFrom_zero]
  | succ n ih =>
    intro k
    rw [chainsFrom_succ, chainsFrom_succ, List.length_append, List.length_append, ih,
      bucketAt_update]
    by_cases he : k = index.val
    · have h1 : ¬ (k + 1 ≤ index.val ∧ index.val < k + 1 + n) := by omega
      have h2 : k ≤ index.val ∧ index.val < k + (n + 1) := by omega
      simp [he, h1, h2]
      omega
    · by_cases h1 : k + 1 ≤ index.val ∧ index.val < k + 1 + n
      · have h2 : k ≤ index.val ∧ index.val < k + (n + 1) := by omega
        simp only [he, h1, h2, if_true, if_false, and_self]
        omega
      · have h2 : ¬ (k ≤ index.val ∧ index.val < k + (n + 1)) := by omega
        simp only [he, h1, h2, if_false]
        omega

theorem symbolCount_update (table : SymbolTable) (index : Fin TABLESIZE) (s : Symbol) :
    symbolCount (fun j => if j = index then s :: table j else table j)
      = symbolCount table + 1 := by
  have h := length_chainsFrom_update table index s TABLESIZE 0
  have hlt : 0 ≤ index.val ∧ index.val < 0 + TABLESIZE := ⟨Nat.zero_le _, by omega⟩
  rw [if_pos hlt] at h
  exact h

/-! ## Invariants of reachable tables -/

theorem applyAdd_some (charSigned : Bool) (table table' : SymbolTable) (c : AddCall)
    (h : applyAdd charSigned table c = some table') :
    table' = table ∨
      ∃ ix : Fin TABLESIZE, (ix.val : Int) = hash charSigned c.name ∧
        table' = (fun i => if i = ix then
          (⟨c.name, c.scopeLevel, c.type, c.size, c.offset, c.varKind⟩ : Symbol) :: table i
          else table i) := by
  unfold applyAdd at h
  cases ha : addSymbol charSigned table c.name c.scopeLevel c.type c.size c.offset c.varKind
      c.mallocOk c.strdupOk with
  | none => rw [ha] at h; exact absurd h (by simp)
  | some r =>
    rw [ha] at h
    obtain ⟨code, t⟩ := r
    have ht : t = table' := Option.some.inj h
    subst ht
    rcases addSymbol_some _ _ _ _ _ _ _ _ _ _ _ _ ha with h1 | h1
    · exact Or.inl h1.2.1
    · obtain ⟨_, _, _, ix, hix, ht⟩ := h1
      exact Or.inr ⟨ix, hix, ht⟩

theorem mem_delChain (scopeLevel : Int) (chain : List Symbol) (s : Symbol) :
    s ∈ delChain scopeLevel chain ↔ s ∈ chain ∧ s.scopeLevel < scopeLevel := by
  rw [delChain_eq_filter]
  simp [List.mem_filter]

theorem bucketsOk_new (charSigned : Bool) : BucketsOk charSigned newSymbolTable := by
  intro i s hs
  simp [newSymbolTable] at hs

theorem bucketsOk_free (charSigned : Bool) (table : SymbolTable) :
    BucketsOk charSigned (freeAllSymbols table) := by
  intro i s hs
  simp [freeAllSymbols] at hs

theorem bucketsOk_del (charSigned : Bool) (table : SymbolTable) (scopeLevel : Int)
    (h : BucketsOk charSigned table) :
    BucketsOk charSigned (delScopeLevel table scopeLevel).2 := by
  intro i s hs
  exact h i s ((mem_delChain scopeLevel (table i) s).mp hs).1

theorem bucketsOk_update (charSigned : Bool) (table : SymbolTable) (ix : Fin TABLESIZE)
    (s : Symbol) (hs : (ix.val : Int) = hash charSigned s.name)
    (h : BucketsOk charSigned table) :
    BucketsOk charSigned (fun i => if i = ix then s :: table i else table i) := by
  intro i s' hs'
  by_cases hi : i = ix
  · simp only [hi, if_true, List.mem_cons] at hs'
    rcases hs' with hs' | hs'
    · rw [hs', hi]; exact hs.symm
    · rw [hi]; exact h _ s' hs'
  · simp only [hi, if_false] at hs'
    exact h i s' hs'

theorem bucketsOk_add (charSigned : Bool) (table table' : SymbolTable) (c : AddCall)
    (h : BucketsOk charSigned table) (ha : applyAdd charSigned table c = some table') :
    BucketsOk charSigned table' := by
  rcases applyAdd_some charSigned table table' c ha with he | ⟨ix, hix, he⟩
  · rw [he]; exact h
  · rw [he]; exact bucketsOk_update charSigned table ix _ hix h

theorem bucketsOk_applyOp (charSigned : Bool) (table table' : SymbolTable) (op : TableOp)
    (h : BucketsOk charSigned table) (ha : applyOp charSigned table op = some table') :
    BucketsOk charSigned table' := by
  cases op with
  | add c => exact bucketsOk_add charSigned table table' c h ha
  | del scopeLevel =>
    have : (delScopeLevel table scopeLevel).2 = table' := Option.some.inj ha
    rw [← this]; exact bucketsOk_del charSigned table scopeLevel h
  | free =>
    have : freeAllSymbols table = table' := Option.some.inj ha
    rw [← this]; exact bucketsOk_free charSigned table

theorem runOps_cons_some (charSigned : Bool) (table table' : SymbolTable) (op : TableOp)
    (rest : List TableOp) (h : runOps charSigned table (op :: rest) = some table') :
    ∃ mid, applyOp charSigned table op = some mid ∧ runOps charSigned mid rest = some table' := by
  simp only [runOps] at h
  cases ha : applyOp charSigned table op with
  | none => rw [ha] at h; exact absurd h (by simp)
  | some mid => rw [ha] at h; exact ⟨mid, rfl, h⟩

theorem bucketsOk_runOps (charSigned : Bool) (ops : List TableOp) :
    ∀ (table table' : SymbolTable), BucketsOk charSigned table →
      runOps charSigned table ops = some table' → BucketsOk charSigned table' := by
  induction ops with
  | nil =>
    intro table table' h hr
    have : table = table' := Option.some.inj hr
    rw [← this]; exact h
  | cons op rest ih =>
    intro table table' h hr
    obtain ⟨mid, h1, h2⟩ := runOps_cons_some charSigned table table' op rest hr
    exact ih mid table' (bucketsOk_applyOp charSigned table mid op h h1) h2

theorem findChain_none_of_bucketsOk (charSigned : Bool) (table : SymbolTable)
    (h : BucketsOk charSigned table) (name : List Nat) (ix : Fin TABLESIZE)
    (hix : (ix.val : Int) = hash charSigned name) :
    findChain name (table ix) = none ↔
      ∀ (i : Fin TABLESIZE) (s : Symbol), s ∈ table i → s.name ≠ name := by
  rw [findChain_eq_none_iff]
  constructor
  · intro hn i s hs hname
    have hi : hash charSigned s.name = (i.val : Int) := h i s hs
    rw [hname, ← hix] at hi
    have : ix = i := Fin.ext (by omega)
    subst this
    exact hn s hs hname
  · intro hn s hs
    exact hn _ s hs

theorem findChain_sorted_max (name : List Nat) (chain : List Symbol) (r : Symbol)
    (hsorted : chain.Pairwise (fun a b => b.scopeLevel ≤ a.scopeLevel))
    (hr : findChain name chain = some r) :
    ∀ s ∈ chain, s.name = name → s.scopeLevel ≤ r.scopeLevel := by
  induction chain with
  | nil => simp [findChain] at hr
  | cons cur next ih =>
    rw [List.pairwise_cons] at hsorted
    by_cases hc : cur.name = name
    · simp [findChain, hc] at hr
      subst hr
      intro s hs _
      rcases List.mem_cons.mp hs with h | h
      · rw [h]
      · exact hsorted.1 s h
    · simp [findChain, hc] at hr
      intro s hs hname
      rcases List.mem_cons.mp hs with h | h
      · rw [h] at hname; exact absurd hname hc
      · exact ih hsorted.2 hr s h hname

theorem chainsSorted_del (table : SymbolTable) (scopeLevel : Int) (h : ChainsSorted table) :
    ChainsSorted (delScopeLevel table scopeLevel).2 := by
  intro i
  show (delChain scopeLevel (table i)).Pairwise _
  rw [delChain_eq_filter]
  exact (h i).sublist (List.filter_sublist _)

theorem chainsSorted_add (charSigned : Bool) (table table' : SymbolTable) (c : AddCall)
    (h : ChainsSorted table)
    (hle : ∀ (i : Fin TABLESIZE) (s : Symbol), s ∈ table i → s.scopeLevel ≤ c.scopeLevel)
    (ha : applyAdd charSigned table c = some table') :
    ChainsSorted table' := by
  rcases applyAdd_some charSigned table table' c ha with he | ⟨ix, _, he⟩
  · rw [he]; exact h
  · rw [he]
    intro i
    by_cases hi : i = ix
    · simp only [hi, if_true]
      exact List.pairwise_cons.mpr ⟨fun s hs => hle _ s hs, h _⟩
    · simp only [hi, if_false]
      exact h i

theorem level_applyAdd (charSigned : Bool) (table table' : SymbolTable) (c : AddCall)
    (ha : applyAdd charSigned table c = some table') (i : Fin TABLESIZE) (s : Symbol)
    (hs : s ∈ table' i) : s ∈ table i ∨ s.scopeLevel = c.scopeLevel := by
  rcases applyAdd_some charSigned table table' c ha with he | ⟨ix, _, he⟩
  · rw [he] at hs; exact Or.inl hs
  · rw [he] at hs
    by_cases hi : i = ix
    · simp only [hi, if_true, List.mem_cons] at hs
      rcases hs with hs | hs
      · right; rw [hs]
      · left; rw [hi]; exact hs
    · simp only [hi, if_false] at hs
      exact Or.inl hs

theorem runOps_append (charSigned : Bool) (ops₁ ops₂ : List TableOp) :
    ∀ (table table' : SymbolTable), runOps charSigned table (ops₁ ++ ops₂) = some table' →
      ∃ mid, runOps charSigned table ops₁ = some mid ∧
        runOps charSigned mid ops₂ = some table' := by
  induction ops₁ with
  | nil => intro table table' h; exact ⟨table, rfl, h⟩
  | cons op rest ih =>
    intro table table' h
    obtain ⟨m, h1, h2⟩ := runOps_cons_some charSigned table table' op (rest ++ ops₂) h
    obtain ⟨mid, h3, h4⟩ := ih m table' h2
    refine ⟨mid, ?_, h4⟩
    simp only [runOps, h1, h3]

theorem chainsSorted_adds (charSigned : Bool) (adds : List AddCall) :
    ∀ (table table' : SymbolTable), ChainsSorted table →
      (∀ (i : Fin TABLESIZE) (s : Symbol), s ∈ table i → ∀ c ∈ adds, s.scopeLevel ≤ c.scopeLevel) →
      adds.Pairwise (fun a b => a.scopeLevel ≤ b.scopeLevel) →
      runOps charSigned table (adds.map TableOp.add) = some table' →
      ChainsSorted table' := by
  induction adds with
  | nil =>
    intro table table' h _ _ hr
    have : table = table' := Option.some.inj hr
    rw [← this]; exact h
  | cons c rest ih =>
    intro table table' h hle hpair hr
    rw [List.pairwise_cons] at hpair
    obtain ⟨mid, h1, h2⟩ := runOps_cons_some charSigned table table' _ _ hr
    have h1' : applyAdd charSigned table c = some mid := h1
    refine ih mid table' ?_ ?_ hpair.2 h2
    · exact chainsSorted_add charSigned table mid c h
        (fun i s hs => hle i s hs c (List.mem_cons_self _ _)) h1'
    · intro i s hs d hd
      rcases level_applyAdd charSigned table mid c h1' i s hs with h3 | h3
      · exact hle i s h3 d (List.mem_cons_of_mem _ hd)
      · rw [h3]; exact hpair.1 d hd

theorem chainsSorted_dels (charSigned : Bool) (dels : List Int) :
    ∀ (table table' : SymbolTable), ChainsSorted table →
      runOps charSigned table (dels.map TableOp.del) = some table' → ChainsSorted table' := by
  induction dels with
  | nil =>
    intro table table' h hr
    have : table = table' := Option.some.inj hr
    rw [← this]; exact h
  | cons d rest ih =>
    intro table table' h hr
    obtain ⟨mid, h1, h2⟩ := runOps_cons_some charSigned table table' _ _ hr
    have hm : (delScopeLevel table d).2 = mid := Option.some.inj h1
    rw [← hm] at h2
    exact ih _ table' (chainsSorted_del table d h) h2

theorem chainsSorted_new : ChainsSorted newSymbolTable := by
  intro i
  simp [newSymbolTable]

theorem symbolCount_new : symbolCount newSymbolTable = 0 := by
  have h : ∀ s, s ∉ allSymbols newSymbolTable := by
    intro s hs
    obtain ⟨i, hi⟩ := (mem_allSymbols _ _).mp hs
    simp [newSymbolTable] at hi
  rw [symbolCount, List.eq_nil_iff_forall_not_mem.mpr h]
  rfl

theorem symbolCount_insertNames (charSigned : Bool) (varKind : VariableKind)
    (names : List (List Nat)) :
    ∀ (table table' : SymbolTable), insertNames charSigned table varKind names = some table' →
      symbolCount table' = symbolCount table + names.length := by
  induction names with
  | nil =>
    intro table table' h
    have : table = table' := Option.some.inj h
    rw [← this]; rfl
  | cons name rest ih =>
    intro table table' h
    simp only [insertNames] at h
    cases ha : addSymbol charSigned table name 0 .T_INT 0 0 varKind true true with
    | none => rw [ha] at h; exact absurd h (by simp)
    | some r =>
      rw [ha] at h
      obtain ⟨code, t⟩ := r
      rcases addSymbol_some _ _ _ _ _ _ _ _ _ _ _ _ ha with h1 | h1
      · rcases h1.2.2 with h2 | h2 <;> exact absurd h2 (by decide)
      · obtain ⟨_, _, _, ix, _, ht⟩ := h1
        rw [ih t table' h, ht, symbolCount_update, List.length_cons]
        omega

/-- The insertion loop on names whose `hash` is not negative adds every
name: it returns a table. -/
theorem insertNames_defined (charSigned : Bool) (varKind : VariableKind)
    (names : List (List Nat)) (hnames : ∀ name ∈ names, 0 ≤ hash charSigned name) :
    ∀ table : SymbolTable, ∃ table', insertNames charSigned table varKind names = some table' := by
  induction names with
  | nil => intro table; exact ⟨table, rfl⟩
  | cons name rest ih =>
    intro table
    obtain ⟨t, ht⟩ := (addSymbol_defined charSigned table name 0 .T_INT 0 0 varKind).1
      (hnames name (List.mem_cons_self _ _))
    obtain ⟨t', ht'⟩ := ih (fun n hn => hnames n (List.mem_cons_of_mem _ hn)) t
    exact ⟨t', by simp only [insertNames, ht, ht']⟩

/-! ## Properties of the symbol table -/

/-- C1: after a successful `addSymbol(table, name, ...)` (the call returns 0),
`findSymbol(table, name)` returns the symbol just inserted, carrying exactly the
fields passed to `addSymbol`, whatever the table held before (older symbols of
the same name included). A call that returns 0 has found `hash(name)` to be the
index of a bucket; for a name of 7-bit characters whose codes add up to less
than 2^31 the call with both allocations succeeding does return 0. -/
theorem findSymbol_addSymbol (charSigned : Bool) (table table' : SymbolTable) (name : List Nat)
    (scopeLevel : Int) (type : DataType) (size : Nat) (offset : Int) (varKind : VariableKind)
    (mallocOk strdupOk : Bool)
    (hok : addSymbol charSigned table name scopeLevel type size offset varKind mallocOk strdupOk
      = some (0, table')) :
    findSymbol charSigned table' name
      = some (some { name := name, scopeLevel := scopeLevel, type := type, size := size,
                     offset := offset, varKind := varKind }) ∧
    (0 ≤ hash charSigned name ∧ hash charSigned name < 97) ∧
    ((∀ b ∈ name, b < 128) → name.sum < 2147483648 →
      ∃ t, addSymbol charSigned table name scopeLevel type size offset varKind true true
        = some (0, t)) := by
  rcases addSymbol_some _ _ _ _ _ _ _ _ _ _ _ _ hok with h | h
  · exact absurd h.1 (by decide)
  · obtain ⟨_, _, _, ix, hix, ht⟩ := h
    refine ⟨?_, ⟨by rw [← hix]; exact Int.natCast_nonneg _, hash_lt charSigned name⟩, ?_⟩
    · rw [findSymbol_at charSigned table' name ix hix, ht]
      simp [findChain]
    · intro h7 hsum
      exact (addSymbol_defined charSigned table name scopeLevel type size offset varKind).1
        (hash_eq_hashSpec charSigned name h7 hsum).2

theorem findSymbol_addSymbol_witness :
    ∃ table' : SymbolTable,
      addSymbol false sampleTable [120] 3 .T_STRING 7 12 .V_LOCAL true true = some (0, table') ∧
      findSymbol false table' [120]
        = some (some { name := [120], scopeLevel := 3, type := .T_STRING, size := 7,
                       offset := 12, varKind := .V_LOCAL }) :=
  ⟨_, rfl,
   (findSymbol_addSymbol false sampleTable _ [120] 3 .T_STRING 7 12 .V_LOCAL true true rfl).1⟩

/-- C2 (shadowing invariant): in a table built from the new table by calls of
`addSymbol` whose scope levels never decrease from one call to the next,
followed by any calls of `delScopeLevel`, `findSymbol(table, name)` for a name
whose `hash` is not negative returns a result; it is absent exactly when no
symbol named `name` is left in any bucket, and a symbol it returns is named
`name`, is stored in the table, and has a scope level at least that of every
stored symbol named `name`. Where plain `char` is signed, `hash` of the name
`\xE9` is -23: `addSymbol` and `findSymbol` of that name use `table[-23]`,
outside the array, and have no defined result. -/
theorem findSymbol_highest_scope :
    (∀ (charSigned : Bool) (adds : List AddCall) (dels : List Int) (table : SymbolTable)
        (name : List Nat),
      adds.Pairwise (fun a b => a.scopeLevel ≤ b.scopeLevel) →
      runOps charSigned newSymbolTable (adds.map TableOp.add ++ dels.map TableOp.del)
        = some table →
      0 ≤ hash charSigned name →
      ∃ r : Option Symbol, findSymbol charSigned table name = some r ∧
        (r = none ↔ ∀ (i : Fin TABLESIZE) (s : Symbol), s ∈ table i → s.name ≠ name) ∧
        (∀ found : Symbol, r = some found →
          found.name = name ∧ (∃ i : Fin TABLESIZE, found ∈ table i) ∧
          ∀ (i : Fin TABLESIZE) (s : Symbol), s ∈ table i → s.name = name →
            s.scopeLevel ≤ found.scopeLevel)) ∧
    (∃ table : SymbolTable,
      runOps false newSymbolTable (sampleAdds.map TableOp.add ++ [2].map TableOp.del)
        = some table ∧
      findSymbol false table [120] = some (some ⟨[120], 1, .T_INT, 0, 0, .V_PARAM⟩)) ∧
    hash true nameE9 = -23 ∧
    runOps true newSymbolTable
        ([⟨nameE9, 1, .T_INT, 0, 0, .V_GLOBAL, true, true⟩].map TableOp.add
          ++ [1].map TableOp.del) = none ∧
    (∀ table : SymbolTable, findSymbol true table nameE9 = none) := by
  refine ⟨?_, ⟨_, rfl, by decide⟩, by decide, rfl,
    fun table => findSymbol_neg true table nameE9 (by decide)⟩
  intro charSigned adds dels table name hmono hrun hname
  have hok : BucketsOk charSigned table :=
    bucketsOk_runOps charSigned _ _ _ (bucketsOk_new charSigned) hrun
  have hsorted : ChainsSorted table := by
    obtain ⟨mid, h1, h2⟩ := runOps_append charSigned _ _ _ _ hrun
    refine chainsSorted_dels charSigned dels mid table
      (chainsSorted_adds charSigned adds _ mid chainsSorted_new ?_ hmono h1) h2
    intro i s hs
    simp [newSymbolTable] at hs
  obtain ⟨ix, hix, hfind⟩ := findSymbol_defined charSigned table name hname
  refine ⟨_, hfind, findChain_none_of_bucketsOk charSigned table hok name ix hix, ?_⟩
  intro found hr
  have hmem := findChain_some name _ found hr
  refine ⟨hmem.2, ⟨ix, hmem.1⟩, ?_⟩
  intro i s hs hsname
  have hi : hash charSigned s.name = (i.val : Int) := hok i s hs
  rw [hsname, ← hix] at hi
  have : ix = i := Fin.ext (by omega)
  subst this
  exact findChain_sorted_max name _ found (hsorted _) hr s hs hsname

/-- C3: after `delScopeLevel(table, L)`, which returns 0, a full iteration
(cursor started with `index = -1`) returns exactly the symbols of the original
table whose scope level is below `L`, in the order in which the iteration of
the original table returns them: the iteration of the original table returns
the chains of buckets 0..96 one after the other, and the iteration after the
deletion returns that list with the symbols of level `L` or more left out. A
symbol is returned after the deletion exactly when it was stored in a bucket of
the original table and its level is below `L`. -/
theorem iterSymbolTable_delScopeLevel (table : SymbolTable) (L : Int)
    (lastsym lastsym' : List Symbol) (fuel : Nat) (hf : symbolCount table + 1 ≤ fuel) :
    (delScopeLevel table L).1 = 0 ∧
    allSymbols table = ((List.range' 0 TABLESIZE).map (bucketAt table)).flatten ∧
    iterateAll table fuel ⟨-1, lastsym⟩ = some (allSymbols table, (allSymbols table).length + 1) ∧
    iterateAll (delScopeLevel table L).2 fuel ⟨-1, lastsym'⟩
      = some ((allSymbols table).filter (fun s => decide (s.scopeLevel < L)),
              ((allSymbols table).filter (fun s => decide (s.scopeLevel < L))).length + 1) ∧
    (∀ s : Symbol, s ∈ (allSymbols table).filter (fun s => decide (s.scopeLevel < L)) ↔
      (∃ i : Fin TABLESIZE, s ∈ table i) ∧ s.scopeLevel < L) := by
  refine ⟨rfl, rfl, iterateAll_start table lastsym fuel hf, ?_, ?_⟩
  · have h := iterateAll_start (delScopeLevel table L).2 lastsym' fuel
      (le_trans (Nat.succ_le_succ (symbolCount_delScopeLevel_le table L)) hf)
    rw [symbolCount, allSymbols_delScopeLevel] at h
    exact h
  · intro s
    rw [List.mem_filter, mem_allSymbols]
    simp

theorem iterSymbolTable_delScopeLevel_witness :
    symbolCount sampleTable + 1 ≤ 5 ∧
    iterateAll sampleTable 5 ⟨-1, []⟩
      = some ([⟨[120], 2, .T_INT, 0, 1, .V_LOCAL⟩, ⟨[120], 1, .T_INT, 0, 0, .V_PARAM⟩,
               ⟨[120], 0, .T_INT, 0, 0, .V_GLOBAL⟩, ⟨[121], 0, .T_INT, 0, 4, .V_GLOBAL⟩], 5) ∧
    iterateAll (delScopeLevel sampleTable 1).2 5 ⟨-1, []⟩
      = some ([⟨[120], 0, .T_INT, 0, 0, .V_GLOBAL⟩, ⟨[121], 0, .T_INT, 0, 4, .V_GLOBAL⟩], 3) ∧
    iterateAll (delScopeLevel sampleTable 1).2 5 ⟨-1, []⟩
      = some ((allSymbols sampleTable).filter (fun s => decide (s.scopeLevel < 1)),
              ((allSymbols sampleTable).filter (fun s => decide (s.scopeLevel < 1))).length + 1) :=
  ⟨by decide, by decide, by decide,
   (iterSymbolTable_delScopeLevel sampleTable 1 [] [] 5 (by decide)).2.2.2.1⟩

/-- C4: calling `iterSymbolTable` from a cursor with `index = -1` until it
returns null yields the concatenation of the 97 bucket chains (buckets in index
order, chain order inside a bucket), so every stored symbol once, and the loop
ends after exactly (number of symbols + 1) calls. When the insertion loop of
`test.c` on `n` names returns a table, the iteration of that table yields `n`
symbols, and the loop returns a table when no name has a negative `hash`. Where
plain `char` is signed the name `\xC3\xA9` (the argument `é` in UTF-8) has
`hash` -51: the insertion loop uses `table[-51]`, outside the array, and has no
defined result. -/
theorem iterSymbolTable_yields_all :
    (∀ (table : SymbolTable) (lastsym : List Symbol) (fuel : Nat),
      symbolCount table + 1 ≤ fuel →
      iterateAll table fuel ⟨-1, lastsym⟩
        = some (((List.range' 0 TABLESIZE).map (bucketAt table)).flatten,
                ((List.range' 0 TABLESIZE).map (bucketAt table)).flatten.length + 1)) ∧
    (∀ (charSigned : Bool) (varKind : VariableKind) (names : List (List Nat))
        (table : SymbolTable) (lastsym : List Symbol) (fuel : Nat),
      insertNames charSigned newSymbolTable varKind names = some table →
      names.length + 1 ≤ fuel →
      ∃ yielded : List Symbol,
        iterateAll table fuel ⟨-1, lastsym⟩ = some (yielded, names.length + 1) ∧
        yielded.length = names.length) ∧
    (∀ (charSigned : Bool) (varKind : VariableKind) (names : List (List Nat)),
      (∀ name ∈ names, 0 ≤ hash charSigned name) →
      ∃ table, insertNames charSigned newSymbolTable varKind names = some table) ∧
    (∃ table : SymbolTable,
      insertNames true newSymbolTable .V_GLOBAL [[120], [121]] = some table ∧
      iterateAll table 3 ⟨-1, []⟩
        = some ([⟨[120], 0, .T_INT, 0, 0, .V_GLOBAL⟩, ⟨[121], 0, .T_INT, 0, 0, .V_GLOBAL⟩], 3)) ∧
    hash true nameC3A9 = -51 ∧
    insertNames true newSymbolTable .V_GLOBAL [nameC3A9] = none ∧
    insertNames true newSymbolTable .V_GLOBAL [[120], nameC3A9] = none := by
  refine ⟨fun table lastsym fuel hf => iterateAll_start table lastsym fuel hf, ?_,
    fun charSigned varKind names hn =>
      insertNames_defined charSigned varKind names hn newSymbolTable,
    ⟨_, rfl, by decide⟩, by decide, rfl, rfl⟩
  intro charSigned varKind names table lastsym fuel hins hf
  have hcount : symbolCount table = names.length := by
    rw [symbolCount_insertNames charSigned varKind names _ _ hins, symbolCount_new,
      Nat.zero_add]
  refine ⟨allSymbols table, ?_, hcount⟩
  have h := iterateAll_start table lastsym fuel (by rw [hcount]; exact hf)
  rw [hcount] at h
  exact h

/-- C5: a call `addSymbol(table, name, ...)` that returns 0 overwrites and
removes nothing: `hash(name)` is the index of a bucket, that bucket becomes the
new symbol followed by the previous chain, every other bucket is unchanged,
every symbol stored before the call is still stored in its bucket, and the
number of symbols grows by exactly one. Where plain `char` is signed, `hash` of
the name `\xE9` is -23: the call reads and writes `table[-23]`, outside the
array, and has no defined result, whatever the table. -/
theorem addSymbol_prepends :
    (∀ (charSigned : Bool) (table table' : SymbolTable) (name : List Nat) (scopeLevel : Int)
        (type : DataType) (size : Nat) (offset : Int) (varKind : VariableKind)
        (mallocOk strdupOk : Bool),
      addSymbol charSigned table name scopeLevel type size offset varKind mallocOk strdupOk
        = some (0, table') →
      ∃ ix : Fin TABLESIZE, (ix.val : Int) = hash charSigned name ∧
        table' ix = (⟨name, scopeLevel, type, size, offset, varKind⟩ : Symbol) :: table ix ∧
        (∀ i : Fin TABLESIZE, i ≠ ix → table' i = table i) ∧
        (∀ (i : Fin TABLESIZE) (s : Symbol), s ∈ table i → s ∈ table' i) ∧
        symbolCount table' = symbolCount table + 1) ∧
    (∃ table' : SymbolTable,
      addSymbol true sampleTable [120] 2 .T_INT 0 1 .V_LOCAL true true = some (0, table') ∧
      table' ⟨23, by decide⟩
        = (⟨[120], 2, .T_INT, 0, 1, .V_LOCAL⟩ : Symbol) :: sampleTable ⟨23, by decide⟩ ∧
      symbolCount table' = 5) ∧
    hash true nameE9 = -23 ∧
    (∀ (table : SymbolTable) (scopeLevel : Int) (type : DataType) (size : Nat) (offset : Int)
        (varKind : VariableKind),
      addSymbol true table nameE9 scopeLevel type size offset varKind true true = none) := by
  refine ⟨?_, ⟨_, rfl, by decide, by decide⟩, by decide,
    fun table scopeLevel type size offset varKind =>
      (addSymbol_defined true table nameE9 scopeLevel type size offset varKind).2 (by decide)⟩
  intro charSigned table table' name scopeLevel type size offset varKind mallocOk strdupOk hok
  rcases addSymbol_some _ _ _ _ _ _ _ _ _ _ _ _ hok with h | h
  · exact absurd h.1 (by decide)
  · obtain ⟨_, _, _, ix, hix, ht⟩ := h
    refine ⟨ix, hix, ?_, ?_, ?_, ?_⟩
    · rw [ht]; simp
    · intro i hi
      rw [ht]; simp [hi]
    · intro i s hs
      rw [ht]
      by_cases hi : i = ix
      · simp only [hi, if_true]
        rw [hi] at hs
        exact List.mem_cons_of_mem _ hs
      · simp only [hi, if_false]
        exact hs
    · rw [ht]; exact symbolCount_update _ _ _

/-- C6: on a table reached from `newSymbolTable()` by any calls of `addSymbol`,
`delScopeLevel` and `freeAllSymbols`, `findSymbol` of a name whose `hash` is
not negative returns a result, absent or a symbol; it is absent exactly when no
bucket holds a symbol of that name, and on a new table it is absent. Where
plain `char` is signed, `hash` of the name `\xE9` is -23 and `hash` of
`\xC3\xA9` is -51: `findSymbol` of these names reads outside the array and has
no defined result, on a new table too. -/
theorem findSymbol_absent_iff :
    (∀ (charSigned : Bool) (ops : List TableOp) (table : SymbolTable) (name : List Nat),
      runOps charSigned newSymbolTable ops = some table →
      0 ≤ hash charSigned name →
      (∃ r : Option Symbol, findSymbol charSigned table name = some r) ∧
      (findSymbol charSigned table name = some none ↔
        ∀ (i : Fin TABLESIZE) (s : Symbol), s ∈ table i → s.name ≠ name) ∧
      findSymbol charSigned newSymbolTable name = some none) ∧
    findSymbol true sampleTable [122] = some none ∧
    hash true nameE9 = -23 ∧
    hash true nameC3A9 = -51 ∧
    findSymbol true newSymbolTable nameE9 = none ∧
    findSymbol true newSymbolTable nameC3A9 = none ∧
    findSymbol true sampleTable nameE9 = none := by
  refine ⟨?_, by decide, by decide, by decide, by decide, by decide, by decide⟩
  intro charSigned ops table name hrun hname
  have hok : BucketsOk charSigned table :=
    bucketsOk_runOps charSigned _ _ _ (bucketsOk_new charSigned) hrun
  obtain ⟨ix, hix, hfind⟩ := findSymbol_defined charSigned table name hname
  refine ⟨⟨_, hfind⟩, ?_, ?_⟩
  · rw [hfind, Option.some.injEq]
    exact findChain_none_of_bucketsOk charSigned table hok name ix hix
  · rw [findSymbol_at charSigned newSymbolTable name ix hix]
    rfl

/-! ## Label allocator -/

theorem toInt32_succ (x : Int) : toInt32 (toInt32 x + 1) = toInt32 (x + 1) := by
  unfold toInt32
  omega

theorem lidAfter_eq (k : Nat) : lidAfter k = toInt32 (100 + (k : Int)) := by
  induction k with
  | zero => decide
  | succ k ih =>
    simp only [lidAfter, getUniqueLabelID, ih, toInt32_succ]
    push_cast
    rw [Int.add_assoc]

theorem labelOfCall_eq (k : Nat) : labelOfCall k = toInt32 (100 + (k : Int)) := by
  simp only [labelOfCall, getUniqueLabelID, lidAfter_eq]

theorem labelOfCall_small (k : Nat) (hk : k ≤ 2147483547) :
    labelOfCall k = 100 + (k : Int) := by
  rw [labelOfCall_eq, toInt32_of_range _ (by omega) (by omega)]

/-- C7 as stated does not hold of a 32-bit counter: call number 2147483547
returns 2147483647, the largest `int`, and call number 2147483548 returns
-2147483648, which is not `100 + 2147483548` and is smaller than the identifier
returned before it; call number 4294967296 returns 100 again, the identifier of
call number 0. -/
theorem getUniqueLabelID_wraps :
    labelOfCall 2147483547 = 2147483647 ∧
    labelOfCall 2147483548 = -2147483648 ∧
    labelOfCall 2147483548 ≠ 100 + ((2147483548 : Nat) : Int) ∧
    ¬ (labelOfCall 2147483547 < labelOfCall 2147483548) ∧
    labelOfCall 4294967296 = labelOfCall 0 := by
  simp only [labelOfCall_eq]
  decide

/-- C7: the label counter starts at 100, and for `k` up to 2147483547 (while
`100 + k` is a value of a 32-bit `int`) call number `k` (from 0) of
`getUniqueLabelID` in a run returns `100 + k`; among these calls an earlier
call returns a smaller identifier than a later one, and two different calls
return different identifiers. -/
theorem getUniqueLabelID_kth (k : Nat) (hk : k ≤ 2147483547) :
    lidStart = 100 ∧
    labelOfCall k = 100 + (k : Int) ∧
    (∀ j : Nat, j < k → labelOfCall j < labelOfCall k) ∧
    (∀ j : Nat, j ≤ 2147483547 → j ≠ k → labelOfCall j ≠ labelOfCall k) := by
  refine ⟨rfl, labelOfCall_small k hk, ?_, ?_⟩
  · intro j hj
    rw [labelOfCall_small k hk, labelOfCall_small j (by omega)]
    omega
  · intro j hj hne
    rw [labelOfCall_small k hk, labelOfCall_small j hj]
    omega

theorem getUniqueLabelID_kth_witness :
    (5 : Nat) ≤ 2147483547 ∧
    labelOfCall 5 = 105 ∧
    (∀ j : Nat, j < 5 → labelOfCall j < labelOfCall 5) ∧
    labelOfCall 0 = 100 ∧ labelOfCall 1 = 101 :=
  ⟨by decide, (getUniqueLabelID_kth 5 (by decide)).2.1, (getUniqueLabelID_kth 5 (by decide)).2.2.1,
   by decide, by decide⟩

/-! ## Control flow and relational nodes of the code generator -/

/-- C8: for a While node the generator takes two labels from the allocator,
`B = lid` and `C = lid + 1` taken in the range of a 32-bit `int` (distinct, and
`C` is `lid + 1` itself when `lid` is an `int` below the largest), and writes,
in this order: the indentation, the jump `b .LL<C>`, the label `.LL<B>:`, the code of child 1 (the
body), the label `.LL<C>:`, the code of child 0 (the condition) generated with
second argument `B`, then the code of the sibling; a RelExpr node generated
with second argument `B` ends its own text with a branch to `.LL<B>`. -/
theorem genCode_while (valType : DataType) (varKind : VariableKind) (ival : Int)
    (strval : Option String) (strNeedsFreed : Int) (next child0 child1 child2 : ASTNode)
    (level lid : Int) :
    (getUniqueLabelID lid).1 = lid ∧
    (getUniqueLabelID (getUniqueLabelID lid).2).1 = toInt32 (lid + 1) ∧
    lid ≠ toInt32 (lid + 1) ∧
    (-2147483648 ≤ lid → lid < 2147483647 → toInt32 (lid + 1) = lid + 1) ∧
    genCodeFromASTree
        (.node .AST_WHILE valType varKind ival strval strNeedsFreed next child0 child1 child2)
        level lid
      = (levelPrefix level
          ++ "\n#While loop"
          ++ "\n\tb\t.LL" ++ fmtD (toInt32 (lid + 1)) ++ "\n"
          ++ "\n#--body--"
          ++ "\n.LL" ++ fmtD lid ++ ":\n"
          ++ (genCodeFromASTree child1 (level + 1) (toInt32 (toInt32 (lid + 1) + 1))).1
          ++ "\n.LL" ++ fmtD (toInt32 (lid + 1)) ++ ":\n"
          ++ (genCodeFromASTree child0 lid
                (genCodeFromASTree child1 (level + 1) (toInt32 (toInt32 (lid + 1) + 1))).2).1
          ++ (genCodeFromASTree next (level + 1)
                (genCodeFromASTree child0 lid
                  (genCodeFromASTree child1 (level + 1) (toInt32 (toInt32 (lid + 1) + 1))).2).2).1,
         (genCodeFromASTree next (level + 1)
                (genCodeFromASTree child0 lid
                  (genCodeFromASTree child1 (level + 1) (toInt32 (toInt32 (lid + 1) + 1))).2).2).2) ∧
    (∀ (vt : DataType) (vk : VariableKind) (op : Int) (sv : Option String) (nf : Int)
        (nx c0 c1 c2 : ASTNode) (l : Int),
      (genCodeFromASTree (.node .AST_RELEXPR vt vk op sv nf nx c0 c1 c2) lid l).1
        = levelPrefix lid
          ++ "\n#Relational Expression (op " ++ fmtD op ++ "," ++ fmtC op ++ ")"
          ++ (genCodeFromASTree c0 (lid + 1) l).1
          ++ "\n\taddi\tsp, sp, -4\n\tsw\tt0, 0(sp)\n"
          ++ (genCodeFromASTree c1 (lid + 1) (genCodeFromASTree c0 (lid + 1) l).2).1
          ++ "\n\tlw\tt1, 0(sp)\n\taddi\tsp, sp, 4\n\t" ++ relopInstr op
          ++ "\tt1, t0, .LL" ++ fmtD lid ++ "\n"
          ++ (genCodeFromASTree nx (lid + 1)
                (genCodeFromASTree c1 (lid + 1) (genCodeFromASTree c0 (lid + 1) l).2).2).1) := by
  refine ⟨rfl, rfl, by unfold toInt32; omega, fun h0 h1 => by unfold toInt32; omega, ?_, ?_⟩
  · simp only [genCodeFromASTree, getUniqueLabelID, String.append_assoc]
  · intro vt vk op sv nf nx c0 c1 c2 l
    simp only [genCodeFromASTree, String.append_assoc]

/-- C9: for an IfThen node the generator takes two labels from the allocator,
`T = lid` and `E = lid + 1` taken in the range of a 32-bit `int` (distinct, and
`E` is `lid + 1` itself when `lid` is an `int` below the largest), and writes,
in this order: the indentation, the code of child 0 (the condition) generated with second
argument `T`, the code of child 2 (the else body), the jump `b .LL<E>`, the
label `.LL<T>:`, the code of child 1 (the then body), the label `.LL<E>:`, then
the code of the sibling; with both bodies absent the same text is written with
nothing in the place of the two bodies. -/
theorem genCode_ifthen (valType : DataType) (varKind : VariableKind) (ival : Int)
    (strval : Option String) (strNeedsFreed : Int) (next child0 child1 child2 : ASTNode)
    (level lid : Int) :
    (getUniqueLabelID lid).1 = lid ∧
    (getUniqueLabelID (getUniqueLabelID lid).2).1 = toInt32 (lid + 1) ∧
    lid ≠ toInt32 (lid + 1) ∧
    (-2147483648 ≤ lid → lid < 2147483647 → toInt32 (lid + 1) = lid + 1) ∧
    genCodeFromASTree
        (.node .AST_IFTHEN valType varKind ival strval strNeedsFreed next child0 child1 child2)
        level lid
      = (levelPrefix level
          ++ "\n#If then"
          ++ (genCodeFromASTree child0 lid (toInt32 (toInt32 (lid + 1) + 1))).1
          ++ "\n#--elsepart comes first--"
          ++ (genCodeFromASTree child2 (level + 1)
                (genCodeFromASTree child0 lid (toInt32 (toInt32 (lid + 1) + 1))).2).1
          ++ "\n\tb\t.LL" ++ fmtD (toInt32 (lid + 1)) ++ "\n"
          ++ "\n#--end elsepart--"
          ++ "\n#--ifpart--"
          ++ "\n.LL" ++ fmtD lid ++ ":\n"
          ++ (genCodeFromASTree child1 (level + 1)
                (genCodeFromASTree child2 (level + 1)
                  (genCodeFromASTree child0 lid (toInt32 (toInt32 (lid + 1) + 1))).2).2).1
          ++ "\n#--end ifpart--"
          ++ "\n.LL" ++ fmtD (toInt32 (lid + 1)) ++ ":\n"
          ++ (genCodeFromASTree next (level + 1)
                (genCodeFromASTree child1 (level + 1)
                  (genCodeFromASTree child2 (level + 1)
                    (genCodeFromASTree child0 lid (toInt32 (toInt32 (lid + 1) + 1))).2).2).2).1,
         (genCodeFromASTree next (level + 1)
                (genCodeFromASTree child1 (level + 1)
                  (genCodeFromASTree child2 (level + 1)
                    (genCodeFromASTree child0 lid (toInt32 (toInt32 (lid + 1) + 1))).2).2).2).2) ∧
    genCodeFromASTree
        (.node .AST_IFTHEN valType varKind ival strval strNeedsFreed next child0 .null .null)
        level lid
      = (levelPrefix level
          ++ "\n#If then"
          ++ (genCodeFromASTree child0 lid (toInt32 (toInt32 (lid + 1) + 1))).1
          ++ "\n#--elsepart comes first--"
          ++ "\n\tb\t.LL" ++ fmtD (toInt32 (lid + 1)) ++ "\n"
          ++ "\n#--end elsepart--"
          ++ "\n#--ifpart--"
          ++ "\n.LL" ++ fmtD lid ++ ":\n"
          ++ "\n#--end ifpart--"
          ++ "\n.LL" ++ fmtD (toInt32 (lid + 1)) ++ ":\n"
          ++ (genCodeFromASTree next (level + 1)
                (genCodeFromASTree child0 lid (toInt32 (toInt32 (lid + 1) + 1))).2).1,
         (genCodeFromASTree next (level + 1)
                (genCodeFromASTree child0 lid (toInt32 (toInt32 (lid + 1) + 1))).2).2) := by
  refine ⟨rfl, rfl, by unfold toInt32; omega, fun h0 h1 => by unfold toInt32; omega, ?_, ?_⟩
  · simp only [genCodeFromASTree, getUniqueLabelID, String.append_assoc]
  · simp only [genCodeFromASTree, getUniqueLabelID, String.append_assoc, String.empty_append]

/-- C10: a RelExpr node generated with second argument `L` writes the code of
its left operand, a push of `t0`, the code of its right operand, a pop into
`t1`, and then one branch `<m> t1, t0, .LL<L>` whose target is the argument `L`;
the mnemonic `<m>` is `beq` for `=`, `bne` for `!`, `blt` for `<` and `bgt` for
`>`. The node takes no label from the allocator: the counter it returns is the
one left by its operands and its sibling. -/
theorem genCode_relexpr (valType : DataType) (varKind : VariableKind) (ival : Int)
    (strval : Option String) (strNeedsFreed : Int) (next child0 child1 child2 : ASTNode)
    (L lid : Int) :
    genCodeFromASTree
        (.node .AST_RELEXPR valType varKind ival strval strNeedsFreed next child0 child1 child2)
        L lid
      = (levelPrefix L
          ++ "\n#Relational Expression (op " ++ fmtD ival ++ "," ++ fmtC ival ++ ")"
          ++ (genCodeFromASTree child0 (L + 1) lid).1
          ++ "\n\taddi\tsp, sp, -4\n\tsw\tt0, 0(sp)\n"
          ++ (genCodeFromASTree child1 (L + 1) (genCodeFromASTree child0 (L + 1) lid).2).1
          ++ "\n\tlw\tt1, 0(sp)\n\taddi\tsp, sp, 4\n\t" ++ relopInstr ival
          ++ "\tt1, t0, .LL" ++ fmtD L ++ "\n"
          ++ (genCodeFromASTree next (L + 1)
                (genCodeFromASTree child1 (L + 1)
                  (genCodeFromASTree child0 (L + 1) lid).2).2).1,
         (genCodeFromASTree next (L + 1)
                (genCodeFromASTree child1 (L + 1)
                  (genCodeFromASTree child0 (L + 1) lid).2).2).2) ∧
    relopInstr (charCode '=') = "beq" ∧
    relopInstr (charCode '!') = "bne" ∧
    relopInstr (charCode '<') = "blt" ∧
    relopInstr (charCode '>') = "bgt" := by
  refine ⟨?_, by decide, by decide, by decide, by decide⟩
  simp only [genCodeFromASTree, String.append_assoc]

/-! ## Calls, functions and declarations in the code generator -/

theorem genCode_argChain (args : List ArgFields) :
    ∀ (j level lid : Int),
      genCodeFromASTree (argChain args j) level lid = argsTextSpec args j level lid := by
  induction args with
  | nil => intro j level lid; rfl
  | cons a rest ih =>
    intro j level lid
    simp only [argChain, genCodeFromASTree, argsTextSpec, ih, String.append_assoc]

/-- C12: for a FunCall node named `f` whose `child[0]` is the chain of
Argument nodes with payloads 0, 1, ..., the generator writes, for each
argument in list order, the code of its expression followed by `mv a<j>, t0`,
and after the last argument the one call `jal f`; for `f(1, 2)` the text is
`li t0, 1`, `mv a0, t0`, `li t0, 2`, `mv a1, t0`, `jal f`, each on a line of its
own. -/
theorem genCode_funcall (valType : DataType) (varKind : VariableKind) (ival : Int)
    (f : String) (strNeedsFreed : Int) (next child1 child2 : ASTNode)
    (args : List ArgFields) (level lid : Int) :
    genCodeFromASTree
        (.node .AST_FUNCALL valType varKind ival (some f) strNeedsFreed next
          (argChain args 0) child1 child2) level lid
      = (levelPrefix level
          ++ (argsTextSpec args 0 (level + 1) lid).1
          ++ "\n\tjal\t" ++ f
          ++ (genCodeFromASTree next (level + 1) (argsTextSpec args 0 (level + 1) lid).2).1,
         (genCodeFromASTree next (level + 1) (argsTextSpec args 0 (level + 1) lid).2).2) ∧
    (genCodeFromASTree sampleCall 0 lidStart).1
      = "         \n\tli\tt0, 1\n\n\tmv\ta0, t0               \n\tli\tt0, 2\n\n\tmv\ta1, t0\n\tjal\tf" := by
  refine ⟨?_, by decide⟩
  simp only [genCodeFromASTree, genCode_argChain, fmtS, String.append_assoc]

/-- C13: a Function node is written as its label, the prologue, the code of
`child[1]`, the code of `child[2]`, the code of `child[0]` and the epilogue, in
this order. For the function of `sampleFunction`, laid out as `astree.h` says,
the call of the body (`jal g`) is written before the store of the parameter
(`sw a0, 8(fp)`). -/
theorem genCode_function_order (valType : DataType) (varKind : VariableKind) (ival : Int)
    (strval : Option String) (strNeedsFreed : Int) (next child0 child1 child2 : ASTNode)
    (level lid : Int) :
    (genCodeFromASTree
        (.node .AST_FUNCTION valType varKind ival strval strNeedsFreed next
          child0 child1 child2) level lid).1
      = levelPrefix level
          ++ "\n" ++ fmtS strval ++ ":\n"
          ++ "\taddi\tsp, sp, -128\n\tsw\tra, 0(sp)\n\tsw\tfp, 4(sp)\n\tmv\tfp, sp\n"
          ++ (genCodeFromASTree child1 (level + 1) lid).1
          ++ (genCodeFromASTree child2 (level + 1)
                (genCodeFromASTree child1 (level + 1) lid).2).1
          ++ (genCodeFromASTree child0 (level + 1)
                (genCodeFromASTree child2 (level + 1)
                  (genCodeFromASTree child1 (level + 1) lid).2).2).1
          ++ "\n\tmv\tsp, fp\n\tlw\tra, 0(sp)\n\tlw\tfp, 4(fp)\n\taddi\tsp, sp, 128\n\tret"
          ++ (genCodeFromASTree next (level + 1)
                (genCodeFromASTree child0 (level + 1)
                  (genCodeFromASTree child2 (level + 1)
                    (genCodeFromASTree child1 (level + 1) lid).2).2).2).1 ∧
    (genCodeFromASTree sampleFunction 0 lidStart).1
      = "\nf:\n\taddi\tsp, sp, -128\n\tsw\tra, 0(sp)\n\tsw\tfp, 4(sp)\n\tmv\tfp, sp\n"
          ++ "   \n\tjal\tg"
          ++ "   \n\tsw\ta0, 8(fp)"
          ++ "\n\tmv\tsp, fp\n\tlw\tra, 0(sp)\n\tlw\tfp, 4(fp)\n\taddi\tsp, sp, 128\n\tret" := by
  refine ⟨?_, by decide⟩
  simp only [genCodeFromASTree, String.append_assoc]

/-- C15: for a VarDecl node of kind GlobalArray with name `a` and payload `n`
the generator writes `a: .space n`: the operand of `.space` is the payload
itself, not `4*n`. For the array of 10 elements of `sampleArrayDecl` the text
is `a: .space 10` and `.space 40` does not occur in it. -/
theorem genCode_globalArray_space (valType : DataType) (n : Int) (a : String)
    (strNeedsFreed : Int) (next child0 child1 child2 : ASTNode) (level lid : Int) :
    genCodeFromASTree
        (.node .AST_VARDECL valType .V_GLARRAY n (some a) strNeedsFreed next
          child0 child1 child2) level lid
      = (levelPrefix level ++ a ++ ":\t.space\t" ++ fmtD n ++ "\n"
          ++ (genCodeFromASTree next (level + 1) lid).1,
         (genCodeFromASTree next (level + 1) lid).2) ∧
    (genCodeFromASTree sampleArrayDecl 0 lidStart).1 = "a:\t.space\t10\n" ∧
    occurrences ".space\t40" (genCodeFromASTree sampleArrayDecl 0 lidStart).1 = 0 := by
  refine ⟨?_, by decide, by decide⟩
  simp [genCodeFromASTree, fmtS, String.append_assoc]

/-- C16: for a VarRef node of kind GlobalArray with name `a` the generator
writes the code of the index expression, `slli t0, t0, 2`, `la t1, a`,
`lw t0, 0(t1)`, and then the code of the index expression a second time; no
`add` is written. For `a[2]` (`sampleArrayRef`) the text has no `add t1, t1, t0`
and its last instruction is `li t0, 2`. -/
theorem genCode_arrayRef (valType : DataType) (ival : Int) (a : String)
    (strNeedsFreed : Int) (next child0 child1 child2 : ASTNode) (level lid : Int) :
    (genCodeFromASTree
        (.node .AST_VARREF valType .V_GLARRAY ival (some a) strNeedsFreed next
          child0 child1 child2) level lid).1
      = levelPrefix level
          ++ (genCodeFromASTree child0 (level + 1) lid).1
          ++ "\n\tslli\tt0, t0, 2"
          ++ "\n\tla\tt1, " ++ a
          ++ "\n\tlw\tt0, 0(t1)"
          ++ "\n# array ref\n"
          ++ (genCodeFromASTree child0 (level + 1)
                (genCodeFromASTree child0 (level + 1) lid).2).1
          ++ (genCodeFromASTree next (level + 1)
                (genCodeFromASTree child0 (level + 1)
                  (genCodeFromASTree child0 (level + 1) lid).2).2).1 ∧
    (genCodeFromASTree sampleArrayRef 0 lidStart).1
      = "   \n\tli\tt0, 2\n"
          ++ "\n\tslli\tt0, t0, 2\n\tla\tt1, a\n\tlw\tt0, 0(t1)\n# array ref\n"
          ++ "   \n\tli\tt0, 2\n" ∧
    occurrences "add\tt1, t1, t0" (genCodeFromASTree sampleArrayRef 0 lidStart).1 = 0 := by
  refine ⟨?_, by decide, by decide⟩
  simp [genCodeFromASTree, fmtS, String.append_assoc]

theorem levelPrefix_blank (level : Int) : ∀ c ∈ (levelPrefix level).data, c = ' ' := by
  intro c hc
  exact List.eq_of_mem_replicate hc

/-- C17: for a VarDecl node of kind Global with name `x` the generator writes
the indentation blanks, then `x: .word 0` and a line end, then goes on with
the sibling; the node writes nothing else and takes no label. -/
theorem genCode_globalScalar (valType : DataType) (ival : Int) (x : String)
    (strNeedsFreed : Int) (next child0 child1 child2 : ASTNode) (level lid : Int) :
    genCodeFromASTree
        (.node .AST_VARDECL valType .V_GLOBAL ival (some x) strNeedsFreed next
          child0 child1 child2) level lid
      = (levelPrefix level ++ x ++ ":\t.word\t0\n"
          ++ (genCodeFromASTree next (level + 1) lid).1,
         (genCodeFromASTree next (level + 1) lid).2) ∧
    (∀ c ∈ (levelPrefix level).data, c = ' ') ∧
    (genCodeFromASTree
        (.node .AST_VARDECL .T_INT .V_GLOBAL 0 (some "x") 0 .null .null .null .null)
        0 lidStart).1 = "x:\t.word\t0\n" := by
  refine ⟨?_, levelPrefix_blank level, by decide⟩
  simp [genCodeFromASTree, fmtS, String.append_assoc]

/-! ## Frame slots -/

theorem frameOffset_eq (i : Int) : frameOffset i = toInt32 (8 + 4 * i) := by
  unfold frameOffset toInt32
  omega

theorem frameOffset_small (i : Int) (h0 : 0 ≤ i) (h1 : i ≤ 536870909) :
    frameOffset i = 8 + 4 * i := by
  rw [frameOffset_eq, toInt32_of_range _ (by omega) (by omega)]

/-- C14 as stated does not hold of 32-bit arithmetic: for the slot index
1073741822 the offset `4+4*(1+i)` computed in `int` is 0, the offset at which
the prologue saves `ra`, and not `8 + 4*i`; for 1073741823 it is 4, where `fp`
is saved; and the offset of slot 536870910 is -2147483648, below the offset
2147483644 of slot 536870909. The load of the local of slot 1073741822 is
written as `lw t0, 0(fp)`. -/
theorem frameOffset_wraps :
    (0 : Int) ≤ 1073741822 ∧
    frameOffset 1073741822 = 0 ∧
    frameOffset 1073741822 ≠ 8 + 4 * 1073741822 ∧
    frameOffset 1073741823 = 4 ∧
    frameOffset 536870909 = 2147483644 ∧
    frameOffset 536870910 = -2147483648 ∧
    ¬ (frameOffset 536870909 < frameOffset 536870910) ∧
    (genCodeFromASTree
        (.node .AST_VARREF .T_INT .V_LOCAL 1073741822 (some "x") 0 .null .null .null .null)
        0 lidStart).1 = "\n\tlw\tt0, 0(fp)" := by
  decide

/-- C14: for a slot index `i` with `0 ≤ i ≤ 536870909` (so that `8 + 4*i` is a
value of a 32-bit `int`) the offset from `fp` that the generator prints in the
store of a Param/Local VarDecl, in the load of a Param/Local VarRef and in the
store of a Param/Local Assignment is `4 + 4*(1+i) = 8 + 4*i`; it is a multiple
of 4, differs from 0 and from 4 (where the prologue, whose text a Function node
starts with, saves `ra` and `fp`), and grows strictly with the slot index in
this range. -/
theorem frameOffset_slots (i : Int) (hi : 0 ≤ i) (hmax : i ≤ 536870909)
    (varKind : VariableKind)
    (hkind : varKind = .V_PARAM ∨ varKind = .V_LOCAL)
    (declType : DataType) (hdecl : declType = .T_INT ∨ declType = .T_STRING)
    (valType : DataType) (strval : Option String) (strNeedsFreed : Int)
    (next child0 child1 child2 : ASTNode) (level lid : Int) :
    genCodeFromASTree
        (.node .AST_VARDECL declType varKind i strval strNeedsFreed next child0 child1 child2)
        level lid
      = (levelPrefix level
          ++ "\n\tsw\ta" ++ fmtD i ++ ", " ++ fmtD (frameOffset i) ++ "(fp)"
          ++ (genCodeFromASTree next (level + 1) lid).1,
         (genCodeFromASTree next (level + 1) lid).2) ∧
    genCodeFromASTree
        (.node .AST_VARREF valType varKind i strval strNeedsFreed next child0 child1 child2)
        level lid
      = (levelPrefix level
          ++ "\n\tlw\tt0, " ++ fmtD (frameOffset i) ++ "(fp)"
          ++ (genCodeFromASTree next (level + 1) lid).1,
         (genCodeFromASTree next (level + 1) lid).2) ∧
    genCodeFromASTree
        (.node .AST_ASSIGNMENT valType varKind i strval strNeedsFreed next child0 child1 child2)
        level lid
      = (levelPrefix level
          ++ (genCodeFromASTree child0 (level + 1) lid).1
          ++ "\n\tsw\ta" ++ fmtD i ++ ", " ++ fmtD (frameOffset i) ++ "(fp)"
          ++ (genCodeFromASTree next (level + 1)
                (genCodeFromASTree child0 (level + 1) lid).2).1,
         (genCodeFromASTree next (level + 1)
                (genCodeFromASTree child0 (level + 1) lid).2).2) ∧
    (genCodeFromASTree
        (.node .AST_FUNCTION valType varKind i strval strNeedsFreed .null .null .null .null)
        level lid).1
      = levelPrefix level ++ "\n" ++ fmtS strval ++ ":\n"
          ++ "\taddi\tsp, sp, -128\n\tsw\tra, 0(sp)\n\tsw\tfp, 4(sp)\n\tmv\tfp, sp\n"
          ++ "\n\tmv\tsp, fp\n\tlw\tra, 0(sp)\n\tlw\tfp, 4(fp)\n\taddi\tsp, sp, 128\n\tret" ∧
    frameOffset i = 4 + 4 * (1 + i) ∧
    frameOffset i = 8 + 4 * i ∧
    (4 : Int) ∣ frameOffset i ∧
    frameOffset i ≠ 0 ∧
    frameOffset i ≠ 4 ∧
    (∀ j : Int, i < j → j ≤ 536870909 → frameOffset i < frameOffset j) := by
  have hoff : frameOffset i = 8 + 4 * i := frameOffset_small i hi hmax
  refine ⟨?_, ?_, ?_, ?_, by rw [hoff]; ring, hoff, ⟨2 + i, by rw [hoff]; ring⟩,
    by omega, by omega, ?_⟩
  · rcases hkind with h | h <;> rcases hdecl with h' | h' <;> subst h <;> subst h' <;>
      simp [genCodeFromASTree, String.append_assoc]
  · rcases hkind with h | h <;> subst h <;>
      simp [genCodeFromASTree, String.append_assoc]
  · rcases hkind with h | h <;> subst h <;>
      simp [genCodeFromASTree, String.append_assoc]
  · simp [genCodeFromASTree, String.append_assoc]
  · intro j hj hjmax
    rw [hoff, frameOffset_small j (by omega) hjmax]
    omega

theorem frameOffset_slots_witness :
    (0 : Int) ≤ 3 ∧ (3 : Int) ≤ 536870909 ∧
    (genCodeFromASTree
        (.node .AST_VARDECL .T_INT .V_PARAM 3 (some "p") 0 .null .null .null .null)
        0 lidStart).1
      = levelPrefix 0 ++ "\n\tsw\ta" ++ fmtD 3 ++ ", " ++ fmtD (frameOffset 3) ++ "(fp)"
          ++ (genCodeFromASTree .null (0 + 1) lidStart).1 ∧
    frameOffset 3 = 8 + 4 * 3 ∧
    frameOffset 3 = 20 :=
  ⟨by decide, by decide,
   congrArg Prod.fst
     (frameOffset_slots 3 (by decide) (by decide) .V_PARAM (Or.inl rfl) .T_INT (Or.inl rfl) .T_INT
        (some "p") 0 .null .null .null .null 0 lidStart).1,
   (frameOffset_slots 3 (by decide) (by decide) .V_PARAM (Or.inl rfl) .T_INT (Or.inl rfl) .T_INT
        (some "p") 0 .null .null .null .null 0 lidStart).2.2.2.2.2.1,
   by decide⟩

/-! ## Release of a tree -/

theorem under_injective (l : Link) (x y : Freed) (h : Freed.under l x = Freed.under l y) :
    x = y := by
  cases x <;> cases y <;> simp [Freed.under] at h <;> simp [h]

theorem count_map_under (l : Link) (x : Freed) (log : List Freed) :
    (log.map (Freed.under l)).count (Freed.under l x) = log.count x := by
  induction log with
  | nil => rfl
  | cons y rest ih =>
    rw [List.map_cons, List.count_cons, List.count_cons, ih]
    by_cases hxy : y = x
    · subst hxy; simp
    · have hne : Freed.under l y ≠ Freed.under l x := fun h => hxy (under_injective l y x h)
      simp [hxy, hne]

theorem count_map_under_other (l : Link) (y : Freed) (log : List Freed)
    (h : ∀ x : Freed, Freed.under l x ≠ y) :
    (log.map (Freed.under l)).count y = 0 := by
  rw [List.count_eq_zero]
  intro hmem
  obtain ⟨x, _, hx⟩ := List.mem_map.mp hmem
  exact h x hx

theorem count_under_node (l l' : Link) (path : List Link) (log : List Freed) :
    (log.map (Freed.under l)).count (Freed.node (l' :: path))
      = if l = l' then log.count (Freed.node path) else 0 := by
  by_cases hl : l = l'
  · subst hl
    rw [if_pos rfl]
    exact count_map_under l (Freed.node path) log
  · rw [if_neg hl]
    apply count_map_under_other
    intro x hx
    cases x <;> simp [Freed.under] at hx
    exact hl hx.1

theorem count_under_text (l l' : Link) (path : List Link) (log : List Freed) :
    (log.map (Freed.under l)).count (Freed.text (l' :: path))
      = if l = l' then log.count (Freed.text path) else 0 := by
  by_cases hl : l = l'
  · subst hl
    rw [if_pos rfl]
    exact count_map_under l (Freed.text path) log
  · rw [if_neg hl]
    apply count_map_under_other
    intro x hx
    cases x <;> simp [Freed.under] at hx
    exact hl hx.1

theorem count_under_node_nil (l : Link) (log : List Freed) :
    (log.map (Freed.under l)).count (Freed.node []) = 0 := by
  apply count_map_under_other
  intro x hx
  cases x <;> simp [Freed.under] at hx

theorem count_under_text_nil (l : Link) (log : List Freed) :
    (log.map (Freed.under l)).count (Freed.text []) = 0 := by
  apply count_map_under_other
  intro x hx
  cases x <;> simp [Freed.under] at hx

theorem freeASTree_count_node (tree : ASTNode) :
    ∀ path : List Link,
      (freeASTree tree).count (Freed.node path)
        = if isNode (nodeAt tree path) = true then 1 else 0 := by
  induction tree with
  | null =>
    intro path
    cases path <;> simp [freeASTree, nodeAt, isNode]
  | node type valType varKind ival strval strNeedsFreed next child0 child1 child2
      ihn ih0 ih1 ih2 =>
    intro path
    cases path with
    | nil =>
      simp only [freeASTree, List.count_append, count_under_node_nil, nodeAt, isNode]
      by_cases h : strNeedsFreed ≠ 0 ∧ strval.isSome = true <;> simp [h]
    | cons l rest =>
      have htext : (if strNeedsFreed ≠ 0 ∧ strval.isSome = true then [Freed.text []]
          else []).count (Freed.node (l :: rest)) = 0 := by
        by_cases h : strNeedsFreed ≠ 0 ∧ strval.isSome = true <;> simp [h]
      simp only [freeASTree, List.count_append, count_under_node, htext]
      cases l <;> simp [nodeAt, ih0, ih1, ih2, ihn]

theorem freeASTree_count_text (tree : ASTNode) :
    ∀ path : List Link,
      (freeASTree tree).count (Freed.text path)
        = if ownsText (nodeAt tree path) = true then 1 else 0 := by
  induction tree with
  | null =>
    intro path
    cases path <;> simp [freeASTree, nodeAt, ownsText]
  | node type valType varKind ival strval strNeedsFreed next child0 child1 child2
      ihn ih0 ih1 ih2 =>
    intro path
    cases path with
    | nil =>
      simp only [freeASTree, List.count_append, count_under_text_nil, nodeAt, ownsText]
      by_cases h : strNeedsFreed ≠ 0 ∧ strval.isSome = true
      · simp [h]
      · simp only [h, if_false]
        have h' : (decide (strNeedsFreed ≠ 0) && strval.isSome) = false := by
          by_cases h1 : strNeedsFreed ≠ 0
          · have h2 : strval.isSome = false := by
              cases hs : strval.isSome
              · rfl
              · exact absurd ⟨h1, hs⟩ h
            simp [h2]
          · simp [h1]
        have hn : ¬ ((decide (strNeedsFreed ≠ 0) && strval.isSome) = true) := by
          rw [h']; exact Bool.false_ne_true
        rw [if_neg hn]
        simp
    | cons l rest =>
      have htext : (if strNeedsFreed ≠ 0 ∧ strval.isSome = true then [Freed.text []]
          else []).count (Freed.text (l :: rest)) = 0 := by
        by_cases h : strNeedsFreed ≠ 0 ∧ strval.isSome = true <;> simp [h]
      simp only [freeASTree, List.count_append, count_under_text, htext]
      cases l <;> simp [nodeAt, ih0, ih1, ih2, ihn]

theorem ownsText_false_of_flagZero (n : ASTNode) (h : flagZero n = true) :
    ownsText n = false := by
  cases n with
  | null => rfl
  | node type valType varKind ival strval strNeedsFreed next child0 child1 child2 =>
    simp only [flagZero, decide_eq_true_eq] at h
    simp [ownsText, h]

/-- C20: `freeASTree` releases the node record at every position reached
from its argument through child slots and `next` links exactly once and no
other record; it releases the text of the node at a position exactly once when
that node has a non-zero `strNeedsFreed` and a text, and not at all otherwise
(so never for a node whose flag is zero); on a null pointer it releases
nothing. -/
theorem freeASTree_exactly_once (tree : ASTNode) (path : List Link) :
    (freeASTree tree).count (Freed.node path)
      = (if isNode (nodeAt tree path) = true then 1 else 0) ∧
    (freeASTree tree).count (Freed.text path)
      = (if ownsText (nodeAt tree path) = true then 1 else 0) ∧
    (flagZero (nodeAt tree path) = true → (freeASTree tree).count (Freed.text path) = 0) ∧
    freeASTree .null = [] ∧
    freeASTree sampleOwnedTree
      = [Freed.node [.child0, .child0], Freed.node [.child0], Freed.text [], Freed.node []] := by
  refine ⟨freeASTree_count_node tree path, freeASTree_count_text tree path, ?_, rfl, by decide⟩
  intro h
  rw [freeASTree_count_text, ownsText_false_of_flagZero _ h]
  simp

/-! ## Occurrences of a pattern in emitted text -/

theorem countSub_skip (a : Char) (pat : List Char) (skip rest : List Char)
    (h : ∀ c ∈ skip, c ≠ a) :
    countSub (a :: pat) (skip ++ rest) = countSub (a :: pat) rest := by
  induction skip with
  | nil => rfl
  | cons c more ih =>
    have hc : (a == c) = false := by
      have : c ≠ a := h c (List.mem_cons_self _ _)
      simpa using fun h' => this h'.symm
    have ih' := ih (fun d hd => h d (List.mem_cons_of_mem _ hd))
    simp only [List.cons_append, countSub, List.isPrefixOf, hc, Bool.false_and]
    simpa using ih'

theorem isPrefixOf_append_of_length_le (pat : List Char) :
    ∀ (text rest : List Char), pat.length ≤ text.length →
      pat.isPrefixOf (text ++ rest) = pat.isPrefixOf text := by
  induction pat with
  | nil => intro text rest _; simp [List.isPrefixOf]
  | cons a p ih =>
    intro text rest hlen
    cases text with
    | nil => simp at hlen
    | cons b t =>
      have ht : p.length ≤ t.length := by simpa using hlen
      rw [List.cons_append]
      simp only [List.isPrefixOf]
      rw [ih t rest ht]

theorem isPrefixOf_append_false (pat : List Char) :
    ∀ (text rest : List Char), text.length < pat.length → text.isPrefixOf pat = false →
      pat.isPrefixOf (text ++ rest) = false := by
  induction pat with
  | nil => intro text rest hlen _; simp at hlen
  | cons a p ih =>
    intro text rest hlen hno
    cases text with
    | nil => simp [List.isPrefixOf] at hno
    | cons b t =>
      have ht : t.length < p.length := by simpa using hlen
      simp only [List.isPrefixOf, Bool.and_eq_false_imp, beq_iff_eq] at hno
      rw [List.cons_append]
      simp only [List.isPrefixOf, Bool.and_eq_false_imp, beq_iff_eq]
      intro hab
      exact ih t rest ht (hno hab.symm)

theorem isPrefixOf_false_of_length_lt (pat text : List Char) (h : text.length < pat.length) :
    pat.isPrefixOf text = false := by
  cases hp : pat.isPrefixOf text with
  | false => rfl
  | true =>
    have := (List.isPrefixOf_iff_prefix.mp hp).length_le
    omega

theorem countSub_append (pat : List Char) (rest : List Char) :
    ∀ (text : List Char), noStraddle pat text = true →
      countSub pat (text ++ rest) = countSub pat text + countSub pat rest := by
  intro text
  induction text with
  | nil => intro _; simp [countSub]
  | cons c t ih =>
    intro h
    simp only [noStraddle, Bool.and_eq_true, Bool.not_eq_true', Bool.and_eq_false_imp,
      decide_eq_true_eq] at h
    have hhead : pat.isPrefixOf ((c :: t) ++ rest) = pat.isPrefixOf (c :: t) := by
      by_cases hlen : (c :: t).length < pat.length
      · rw [isPrefixOf_append_false pat (c :: t) rest hlen (h.1 hlen),
          isPrefixOf_false_of_length_lt pat (c :: t) hlen]
      · exact isPrefixOf_append_of_length_le pat (c :: t) rest (by omega)
    have hrec := ih h.2
    rw [List.cons_append] at hhead ⊢
    simp only [countSub, hhead, hrec]
    omega

theorem digitChar_mod_ten (n : Nat) : Nat.digitChar (n % 10) ∈ "0123456789".data := by
  have h : n % 10 < 10 := Nat.mod_lt _ (by decide)
  interval_cases n % 10 <;> decide

theorem toDigitsCore_chars (fuel : Nat) :
    ∀ (n : Nat) (ds : List Char), (∀ c ∈ ds, c ∈ "0123456789".data) →
      ∀ c ∈ Nat.toDigitsCore 10 fuel n ds, c ∈ "0123456789".data := by
  induction fuel with
  | zero => intro n ds hds c hc; exact hds c (by simpa [Nat.toDigitsCore] using hc)
  | succ fuel ih =>
    intro n ds hds c hc
    have hcons : ∀ d ∈ Nat.digitChar (n % 10) :: ds, d ∈ "0123456789".data := by
      intro d hd
      rcases List.mem_cons.mp hd with h | h
      · rw [h]; exact digitChar_mod_ten n
      · exact hds d h
    simp only [Nat.toDigitsCore] at hc
    by_cases hz : n / 10 = 0
    · rw [if_pos hz] at hc
      exact hcons c hc
    · rw [if_neg hz] at hc
      exact ih _ _ hcons c hc

theorem natRepr_chars (n : Nat) : ∀ c ∈ (Nat.repr n).data, c ∈ "0123456789".data := by
  intro c hc
  exact toDigitsCore_chars (n + 1) n [] (by simp) c hc

theorem fmtD_chars (i : Int) : ∀ c ∈ (fmtD i).data, c ∈ "-0123456789".data := by
  intro c hc
  cases i with
  | ofNat m =>
    have := natRepr_chars m c hc
    exact List.mem_cons_of_mem _ this
  | negSucc m =>
    have hc' : c ∈ '-' :: (Nat.repr (m + 1)).data := hc
    rcases List.mem_cons.mp hc' with h | h
    · rw [h]; exact List.mem_cons_self _ _
    · exact List.mem_cons_of_mem _ (natRepr_chars (m + 1) c h)

theorem fmtD_ne (i : Int) (a : Char) (ha : a ∉ "-0123456789".data) :
    ∀ c ∈ (fmtD i).data, c ≠ a := by
  intro c hc hca
  exact ha (hca ▸ fmtD_chars i c hc)

theorem levelPrefix_ne (level : Int) (a : Char) (ha : a ≠ ' ') :
    ∀ c ∈ (levelPrefix level).data, c ≠ a := by
  intro c hc hca
  exact ha (hca ▸ levelPrefix_blank level c hc)

/-! ## Push and pop of the accumulator in binary nodes -/

theorem relopInstr_cases (ival : Int) :
    relopInstr ival ∈ ["beq", "bne", "blt", "bgt", "unknown relop"] := by
  unfold relopInstr
  split_ifs <;> simp

theorem countSub_relexpr_shape (a b : Char) (p blanks d1 d2 m A1 A2 A3 : List Char) (c : Char)
    (hb : ∀ x ∈ blanks, x ≠ a) (hd1 : ∀ x ∈ d1, x ≠ a) (hd2 : ∀ x ∈ d2, x ≠ a)
    (hcomma : a ≠ ',') (hparen : a ≠ ')') (hsecond : b ≠ ')') (hnl : a ≠ '\n')
    (h1 : noStraddle (a :: b :: p) A1 = true) (h2 : noStraddle (a :: b :: p) A2 = true)
    (hm : noStraddle (a :: b :: p) m = true) (h3 : noStraddle (a :: b :: p) A3 = true) :
    countSub (a :: b :: p)
        (blanks ++ (A1 ++ (d1 ++ (',' :: c :: ')' :: (A2 ++ (m ++ (A3 ++ (d2 ++ ['\n']))))))))
      = countSub (a :: b :: p) A1 + countSub (a :: b :: p) A2
          + countSub (a :: b :: p) m + countSub (a :: b :: p) A3 := by
  rw [countSub_skip a (b :: p) blanks _ hb, countSub_append _ _ A1 h1,
    countSub_skip a (b :: p) d1 _ hd1]
  have e1 : (a == ',') = false := by simpa using hcomma
  have e2 : (a == ')') = false := by simpa using hparen
  have e3 : (b == ')') = false := by simpa using hsecond
  have e4 : (a == '\n') = false := by simpa using hnl
  simp only [countSub, List.isPrefixOf, e1, e2, e3, Bool.false_and, Bool.and_false]
  rw [countSub_append _ _ A2 h2, countSub_append _ _ m hm, countSub_append _ _ A3 h3,
    countSub_skip a (b :: p) d2 _ hd2]
  simp only [countSub, List.isPrefixOf, e4, Bool.false_and]
  simp
  omega

theorem relexpr_own_text (valType : DataType) (varKind : VariableKind) (ival : Int)
    (strval : Option String) (strNeedsFreed : Int) (child2 : ASTNode) (level lid : Int) :
    (genCodeFromASTree
        (.node .AST_RELEXPR valType varKind ival strval strNeedsFreed .null .null .null child2)
        level lid).1.data
      = (levelPrefix level).data ++ ("\n#Relational Expression (op ".data ++ ((fmtD ival).data
          ++ (',' :: Char.ofNat (ival % 256).toNat :: ')'
            :: ("\n\taddi\tsp, sp, -4\n\tsw\tt0, 0(sp)\n\n\tlw\tt1, 0(sp)\n\taddi\tsp, sp, 4\n\t".data
              ++ ((relopInstr ival).data ++ ("\tt1, t0, .LL".data
                ++ ((fmtD level).data ++ ['\n']))))))) := by
  simp only [genCodeFromASTree, String.data_append, fmtC, List.append_assoc]
  rfl

theorem relexpr_pushes (valType : DataType) (varKind : VariableKind) (ival : Int)
    (strval : Option String) (strNeedsFreed : Int) (child2 : ASTNode) (level lid : Int) :
    occurrences pushText (genCodeFromASTree
        (.node .AST_RELEXPR valType varKind ival strval strNeedsFreed .null .null .null child2)
        level lid).1 = 1 := by
  unfold occurrences
  rw [relexpr_own_text]
  show countSub ('a' :: 'd' :: "di\tsp, sp, -4\n\tsw\tt0, 0(sp)".data) _ = 1
  have hm := relopInstr_cases ival
  simp only [List.mem_cons, List.mem_singleton, List.not_mem_nil, or_false] at hm
  rw [countSub_relexpr_shape 'a' 'd' _ _ _ _ _ _ _ _ _
    (levelPrefix_ne level 'a' (by decide)) (fmtD_ne ival 'a' (by decide))
    (fmtD_ne level 'a' (by decide)) (by decide) (by decide) (by decide) (by decide)
    (by decide) (by decide) (by rcases hm with h | h | h | h | h <;> rw [h] <;> decide)
    (by decide)]
  rcases hm with h | h | h | h | h <;> rw [h] <;> decide

theorem relexpr_pops (valType : DataType) (varKind : VariableKind) (ival : Int)
    (strval : Option String) (strNeedsFreed : Int) (child2 : ASTNode) (level lid : Int) :
    occurrences popText (genCodeFromASTree
        (.node .AST_RELEXPR valType varKind ival strval strNeedsFreed .null .null .null child2)
        level lid).1 = 1 := by
  unfold occurrences
  rw [relexpr_own_text]
  show countSub ('l' :: 'w' :: "\tt1, 0(sp)\n\taddi\tsp, sp, 4".data) _ = 1
  have hm := relopInstr_cases ival
  simp only [List.mem_cons, List.mem_singleton, List.not_mem_nil, or_false] at hm
  rw [countSub_relexpr_shape 'l' 'w' _ _ _ _ _ _ _ _ _
    (levelPrefix_ne level 'l' (by decide)) (fmtD_ne ival 'l' (by decide))
    (fmtD_ne level 'l' (by decide)) (by decide) (by decide) (by decide) (by decide)
    (by decide) (by decide) (by rcases hm with h | h | h | h | h <;> rw [h] <;> decide)
    (by decide)]
  rcases hm with h | h | h | h | h <;> rw [h] <;> decide

theorem expression_own_text (valType : DataType) (varKind : VariableKind) (ival : Int)
    (strval : Option String) (strNeedsFreed : Int) (child2 : ASTNode) (level lid : Int) :
    (genCodeFromASTree
        (.node .AST_EXPRESSION valType varKind ival strval strNeedsFreed .null .null .null
          child2) level lid).1.data
      = (levelPrefix level).data ++ ("\n\taddi\tsp, sp, -4\n\tsw\tt0, 0(sp)\t".data
          ++ (if ival = charCode '-' then
                "\n\tlw\tt1, 0(sp)\n\taddi\tsp, sp, 4\n\tsub\tt0, t1, t0"
              else if ival = charCode '+' then
                "\n\tlw\tt1, 0(sp)\n\taddi\tsp, sp, 4\n\tadd\tt0, t0, t1"
              else "Unknown Constant\n").data) := by
  simp only [genCodeFromASTree, String.data_append, List.append_assoc]
  simp

theorem countSub_expression_shape (a : Char) (p blanks A1 A2 : List Char)
    (hb : ∀ x ∈ blanks, x ≠ a) (h1 : noStraddle (a :: p) A1 = true) :
    countSub (a :: p) (blanks ++ (A1 ++ A2))
      = countSub (a :: p) A1 + countSub (a :: p) A2 := by
  rw [countSub_skip a p blanks _ hb, countSub_append _ _ A1 h1]

/-- C11 (as amended): the text written by a RelExpr node itself (the node
generated without operands and sibling), whatever its operator code, and the
text written by an Expression node itself when its operator is `+` or `-`,
contains exactly one push of the accumulator (`addi sp, sp, -4` then
`sw t0, 0(sp)`) and exactly one pop (`lw t1, 0(sp)` then `addi sp, sp, 4`). -/
theorem binary_node_push_pop (valType : DataType) (varKind : VariableKind) (ival : Int)
    (strval : Option String) (strNeedsFreed : Int) (child2 : ASTNode) (level lid : Int) :
    occurrences pushText (genCodeFromASTree
        (.node .AST_RELEXPR valType varKind ival strval strNeedsFreed .null .null .null child2)
        level lid).1 = 1 ∧
    occurrences popText (genCodeFromASTree
        (.node .AST_RELEXPR valType varKind ival strval strNeedsFreed .null .null .null child2)
        level lid).1 = 1 ∧
    occurrences pushText (genCodeFromASTree
        (.node .AST_EXPRESSION valType varKind (charCode '+') strval strNeedsFreed
          .null .null .null child2) level lid).1 = 1 ∧
    occurrences popText (genCodeFromASTree
        (.node .AST_EXPRESSION valType varKind (charCode '+') strval strNeedsFreed
          .null .null .null child2) level lid).1 = 1 ∧
    occurrences pushText (genCodeFromASTree
        (.node .AST_EXPRESSION valType varKind (charCode '-') strval strNeedsFreed
          .null .null .null child2) level lid).1 = 1 ∧
    occurrences popText (genCodeFromASTree
        (.node .AST_EXPRESSION valType varKind (charCode '-') strval strNeedsFreed
          .null .null .null child2) level lid).1 = 1 := by
  refine ⟨relexpr_pushes _ _ _ _ _ _ _ _, relexpr_pops _ _ _ _ _ _ _ _, ?_, ?_, ?_, ?_⟩
  · unfold occurrences
    rw [expression_own_text]
    show countSub ('a' :: "ddi\tsp, sp, -4\n\tsw\tt0, 0(sp)".data) _ = 1
    rw [countSub_expression_shape 'a' _ _ _ _ (levelPrefix_ne level 'a' (by decide))
      (by decide)]
    decide
  · unfold occurrences
    rw [expression_own_text]
    show countSub ('l' :: "w\tt1, 0(sp)\n\taddi\tsp, sp, 4".data) _ = 1
    rw [countSub_expression_shape 'l' _ _ _ _ (levelPrefix_ne level 'l' (by decide))
      (by decide)]
    decide
  · unfold occurrences
    rw [expression_own_text]
    show countSub ('a' :: "ddi\tsp, sp, -4\n\tsw\tt0, 0(sp)".data) _ = 1
    rw [countSub_expression_shape 'a' _ _ _ _ (levelPrefix_ne level 'a' (by decide))
      (by decide)]
    decide
  · unfold occurrences
    rw [expression_own_text]
    show countSub ('l' :: "w\tt1, 0(sp)\n\taddi\tsp, sp, 4".data) _ = 1
    rw [countSub_expression_shape 'l' _ _ _ _ (levelPrefix_ne level 'l' (by decide))
      (by decide)]
    decide

/-- C11 (counterexample): the Expression node of `sampleBareProduct`, whose
operator code is `*`, writes one push and no pop: its text is the push followed
by `Unknown Constant`. -/
theorem expression_star_unbalanced :
    (genCodeFromASTree sampleBareProduct 0 lidStart).1
      = "\n\taddi\tsp, sp, -4\n\tsw\tt0, 0(sp)\tUnknown Constant\n" ∧
    occurrences pushText (genCodeFromASTree sampleBareProduct 0 lidStart).1 = 1 ∧
    occurrences popText (genCodeFromASTree sampleBareProduct 0 lidStart).1 = 0 := by
  decide

/-! ## Nodes and operators the generator does not know -/

set_option maxRecDepth 20000 in
/-- C18 (counterexample): for the statement block of `sampleBlock` the
generator writes the text `Unknown AST node!`; after a statement block it goes
on and writes the code of the sibling; for the product `1 * 2` it writes
`Unknown Constant` after the operand code and the push; for the relation of
`sampleBadRelation` it writes a branch with the mnemonic `unknown relop`. -/
theorem unknown_node_text_emitted :
    (genCodeFromASTree sampleBlock 0 lidStart).1 = "Unknown AST node!\n" ∧
    (genCodeFromASTree sampleBlockThenCall 0 lidStart).1 = "Unknown AST node!\n   \n\tjal\tg" ∧
    (genCodeFromASTree sampleProduct 0 lidStart).1
      = "   \n\tli\tt0, 1\n\n\taddi\tsp, sp, -4\n\tsw\tt0, 0(sp)\t   \n\tli\tt0, 2\nUnknown Constant\n" ∧
    occurrences "unknown relop\tt1, t0, .LL0" (genCodeFromASTree sampleBadRelation 0 lidStart).1
      = 1 := by
  refine ⟨by decide, by decide, by decide, by decide⟩

/-- C18 (as amended): a node of a kind the generator has no case for
(StatementBlock) makes it write `Unknown AST node!` after the indentation and
go on with the sibling, without visiting the children; an Expression node whose
operator is neither `+` nor `-` makes it write the operand code, the push and
`Unknown Constant`; a RelExpr node whose operator is none of `=`, `!`, `<`, `>`
makes it write its branch with the mnemonic `unknown relop`. In each case the
code of the sibling follows and the result is text and label counter only. -/
theorem genCode_unknown (valType : DataType) (varKind : VariableKind) (ival : Int)
    (strval : Option String) (strNeedsFreed : Int) (next child0 child1 child2 : ASTNode)
    (level lid : Int) (opE opR : Int)
    (hE : opE ≠ charCode '-' ∧ opE ≠ charCode '+')
    (hR : opR ≠ charCode '=' ∧ opR ≠ charCode '!' ∧ opR ≠ charCode '<' ∧ opR ≠ charCode '>') :
    genCodeFromASTree
        (.node .AST_SBLOCK valType varKind ival strval strNeedsFreed next child0 child1 child2)
        level lid
      = (levelPrefix level ++ "Unknown AST node!\n"
          ++ (genCodeFromASTree next (level + 1) lid).1,
         (genCodeFromASTree next (level + 1) lid).2) ∧
    genCodeFromASTree
        (.node .AST_EXPRESSION valType varKind opE strval strNeedsFreed next
          child0 child1 child2) level lid
      = (levelPrefix level
          ++ (genCodeFromASTree child0 (level + 1) lid).1
          ++ "\n\taddi\tsp, sp, -4\n\tsw\tt0, 0(sp)\t"
          ++ (genCodeFromASTree child1 (level + 1) (genCodeFromASTree child0 (level + 1) lid).2).1
          ++ "Unknown Constant\n"
          ++ (genCodeFromASTree next (level + 1)
                (genCodeFromASTree child1 (level + 1)
                  (genCodeFromASTree child0 (level + 1) lid).2).2).1,
         (genCodeFromASTree next (level + 1)
                (genCodeFromASTree child1 (level + 1)
                  (genCodeFromASTree child0 (level + 1) lid).2).2).2) ∧
    genCodeFromASTree
        (.node .AST_RELEXPR valType varKind opR strval strNeedsFreed next
          child0 child1 child2) level lid
      = (levelPrefix level
          ++ "\n#Relational Expression (op " ++ fmtD opR ++ "," ++ fmtC opR ++ ")"
          ++ (genCodeFromASTree child0 (level + 1) lid).1
          ++ "\n\taddi\tsp, sp, -4\n\tsw\tt0, 0(sp)\n"
          ++ (genCodeFromASTree child1 (level + 1) (genCodeFromASTree child0 (level + 1) lid).2).1
          ++ "\n\tlw\tt1, 0(sp)\n\taddi\tsp, sp, 4\n\t" ++ "unknown relop"
          ++ "\tt1, t0, .LL" ++ fmtD level ++ "\n"
          ++ (genCodeFromASTree next (level + 1)
                (genCodeFromASTree child1 (level + 1)
                  (genCodeFromASTree child0 (level + 1) lid).2).2).1,
         (genCodeFromASTree next (level + 1)
                (genCodeFromASTree child1 (level + 1)
                  (genCodeFromASTree child0 (level + 1) lid).2).2).2) := by
  have hrel : relopInstr opR = "unknown relop" := by
    unfold relopInstr
    rw [if_neg hR.1, if_neg hR.2.1, if_neg hR.2.2.1, if_neg hR.2.2.2]
  refine ⟨?_, ?_, ?_⟩
  · simp only [genCodeFromASTree, String.append_assoc]
  · simp only [genCodeFromASTree, if_neg hE.1, if_neg hE.2, String.append_assoc]
  · simp only [genCodeFromASTree, hrel, String.append_assoc]

theorem genCode_unknown_witness :
    (charCode '*' ≠ charCode '-' ∧ charCode '*' ≠ charCode '+') ∧
    (charCode '*' ≠ charCode '=' ∧ charCode '*' ≠ charCode '!' ∧ charCode '*' ≠ charCode '<'
      ∧ charCode '*' ≠ charCode '>') ∧
    genCodeFromASTree
        (.node .AST_SBLOCK .T_INT .V_GLOBAL 0 none 0 .null .null .null .null) 0 lidStart
      = (levelPrefix 0 ++ "Unknown AST node!\n"
          ++ (genCodeFromASTree .null (0 + 1) lidStart).1,
         (genCodeFromASTree .null (0 + 1) lidStart).2) :=
  ⟨by decide, by decide,
   (genCode_unknown .T_INT .V_GLOBAL 0 none 0 .null .null .null .null 0 lidStart
      (charCode '*') (charCode '*') (by decide) (by decide)).1⟩

/-! ## The empty program -/

theorem program_own_text (valType : DataType) (varKind : VariableKind) (ival : Int)
    (strval : Option String) (strNeedsFreed : Int) (level lid : Int) :
    genCodeFromASTree
        (.node .AST_PROGRAM valType varKind ival strval strNeedsFreed .null .null .null .null)
        level lid
      = (levelPrefix level
          ++ "\t.text\n\nprogram:\n"
          ++ "\n\tli\ta0, 0\n\tli\ta7, 93\n\tecall"
          ++ levelPrefix (level + 1)
          ++ "\n\n#--functions--\n"
          ++ libraryText, lid) := by
  simp only [genCodeFromASTree, String.append_assoc, String.empty_append, String.append_empty]

set_option maxRecDepth 20000 in
theorem occurrences_program (pat : String) (a : Char) (p : List Char) (level : Int)
    (hpat : pat.data = a :: p) (ha : a ≠ ' ')
    (h1 : noStraddle pat.data
      ("\t.text\n\nprogram:\n" ++ "\n\tli\ta0, 0\n\tli\ta7, 93\n\tecall").data = true)
    (hc1 : countSub pat.data
      ("\t.text\n\nprogram:\n" ++ "\n\tli\ta0, 0\n\tli\ta7, 93\n\tecall").data = 0)
    (hc2 : countSub pat.data ("\n\n#--functions--\n" ++ libraryText).data = 0) :
    occurrences pat
      (levelPrefix level
          ++ "\t.text\n\nprogram:\n"
          ++ "\n\tli\ta0, 0\n\tli\ta7, 93\n\tecall"
          ++ levelPrefix (level + 1)
          ++ "\n\n#--functions--\n"
          ++ libraryText) = 0 := by
  unfold occurrences
  have htext : (levelPrefix level
          ++ "\t.text\n\nprogram:\n"
          ++ "\n\tli\ta0, 0\n\tli\ta7, 93\n\tecall"
          ++ levelPrefix (level + 1)
          ++ "\n\n#--functions--\n"
          ++ libraryText).data
      = (levelPrefix level).data
          ++ (("\t.text\n\nprogram:\n" ++ "\n\tli\ta0, 0\n\tli\ta7, 93\n\tecall").data
            ++ ((levelPrefix (level + 1)).data
              ++ ("\n\n#--functions--\n" ++ libraryText).data)) := by
    simp only [String.data_append, List.append_assoc]
  rw [htext]
  rw [hpat] at h1 hc1 hc2 ⊢
  rw [countSub_skip a p _ _ (levelPrefix_ne level a ha), countSub_append _ _ _ h1,
    countSub_skip a p _ _ (levelPrefix_ne (level + 1) a ha), hc1, hc2]

set_option maxRecDepth 20000 in
/-- C19: for a Program node without children (and without sibling) the
generator writes the label `program:` followed at once by `li a0, 0`,
`li a7, 93`, `ecall`, then the heading of the function section followed at once
by the fixed library routines; the text contains no call, jump or branch
instruction and no `.LL` label, so nothing in it refers to a label that is not
defined, and the label counter is unchanged. -/
theorem genCode_empty_program (valType : DataType) (varKind : VariableKind) (ival : Int)
    (strval : Option String) (strNeedsFreed : Int) (level lid : Int) :
    genCodeFromASTree
        (.node .AST_PROGRAM valType varKind ival strval strNeedsFreed .null .null .null .null)
        level lid
      = (levelPrefix level
          ++ "\t.text\n\nprogram:\n"
          ++ "\n\tli\ta0, 0\n\tli\ta7, 93\n\tecall"
          ++ levelPrefix (level + 1)
          ++ "\n\n#--functions--\n"
          ++ libraryText, lid) ∧
    (∀ pat ∈ jumpPatterns,
      occurrences pat (genCodeFromASTree
        (.node .AST_PROGRAM valType varKind ival strval strNeedsFreed .null .null .null .null)
        level lid).1 = 0) ∧
    (genCodeFromASTree sampleEmptyProgram 0 lidStart).1
      = "\t.text\n\nprogram:\n\n\tli\ta0, 0\n\tli\ta7, 93\n\tecall   \n\n#--functions--\n"
          ++ "\n\n#\n# some library functions\n#\n"
          ++ "\n# Print a null-terminated string: arg: a0 == string address"
          ++ "\nprintStr:\n\tli\ta7, 4\n\tecall\n\tret\n"
          ++ "\n# Print a decimal integer: arg: a0 == value"
          ++ "\nprintInt:\n\tli\ta7, 1\n\tecall\n\tret\n\n"
          ++ "\n# Read in a decimal integer: return: a0 == value"
          ++ "\nreadInt:\n\tli\ta7, 5\n\tecall\n\tret" := by
  refine ⟨program_own_text _ _ _ _ _ _ _, ?_, by decide⟩
  intro pat hpat
  rw [program_own_text]
  simp only [jumpPatterns, List.mem_cons, List.mem_singleton, List.not_mem_nil, or_false] at hpat
  rcases hpat with h | h | h | h | h | h | h <;> subst h
  · exact occurrences_program _ '\t' _ level rfl (by decide) (by decide) (by decide) (by decide)
  · exact occurrences_program _ '\t' _ level rfl (by decide) (by decide) (by decide) (by decide)
  · exact occurrences_program _ '\t' _ level rfl (by decide) (by decide) (by decide) (by decide)
  · exact occurrences_program _ '\t' _ level rfl (by decide) (by decide) (by decide) (by decide)
  · exact occurrences_program _ '\t' _ level rfl (by decide) (by decide) (by decide) (by decide)
  · exact occurrences_program _ '\t' _ level rfl (by decide) (by decide) (by decide) (by decide)
  · exact occurrences_program _ '.' _ level rfl (by decide) (by decide) (by decide) (by decide)

/-! ## Release of all symbols, bucket placement, and `hash` -/

/-- C21: after `freeAllSymbols(table)` every bucket is empty and an iteration
from `index = -1` returns null at its first call; for a name whose `hash` is
not negative `findSymbol` is absent, and the table is usable: `addSymbol` with
both allocations succeeding returns 0 and `findSymbol` of the same name then
returns the new symbol. Where plain `char` is signed, `hash` of the name `\xE9`
is -23: after `freeAllSymbols`, `findSymbol` and `addSymbol` of that name use
`table[-23]`, outside the array that `freeAllSymbols` has cleared, and have no
defined result. -/
theorem freeAllSymbols_empties :
    (∀ (charSigned : Bool) (table : SymbolTable) (i : Fin TABLESIZE) (name : List Nat)
        (lastsym : List Symbol) (fuel : Nat) (scopeLevel : Int) (type : DataType) (size : Nat)
        (offset : Int) (varKind : VariableKind),
      freeAllSymbols table i = [] ∧
      iterateAll (freeAllSymbols table) (fuel + 1) ⟨-1, lastsym⟩ = some ([], 1) ∧
      (0 ≤ hash charSigned name →
        findSymbol charSigned (freeAllSymbols table) name = some none ∧
        ∃ table' : SymbolTable,
          addSymbol charSigned (freeAllSymbols table) name scopeLevel type size offset varKind
            true true = some (0, table') ∧
          findSymbol charSigned table' name
            = some (some { name := name, scopeLevel := scopeLevel, type := type, size := size,
                           offset := offset, varKind := varKind }))) ∧
    findSymbol true (freeAllSymbols sampleTable) [120] = some none ∧
    hash true nameE9 = -23 ∧
    (∀ table : SymbolTable, findSymbol true (freeAllSymbols table) nameE9 = none) ∧
    (∀ (table : SymbolTable) (scopeLevel : Int) (type : DataType) (size : Nat) (offset : Int)
        (varKind : VariableKind),
      addSymbol true (freeAllSymbols table) nameE9 scopeLevel type size offset varKind
        true true = none) := by
  refine ⟨?_, by decide, by decide,
    fun table => findSymbol_neg true _ nameE9 (by decide),
    fun table scopeLevel type size offset varKind =>
      (addSymbol_defined true _ nameE9 scopeLevel type size offset varKind).2 (by decide)⟩
  intro charSigned table i name lastsym fuel scopeLevel type size offset varKind
  have hcount : symbolCount (freeAllSymbols table) = 0 := symbolCount_new
  have hall : allSymbols (freeAllSymbols table) = [] :=
    List.eq_nil_of_length_eq_zero hcount
  refine ⟨rfl, ?_, ?_⟩
  · have h := iterateAll_start (freeAllSymbols table) lastsym (fuel + 1)
      (by rw [hcount]; omega)
    rw [hall, hcount] at h
    exact h
  · intro hname
    obtain ⟨ix, hix, hfind⟩ := findSymbol_defined charSigned (freeAllSymbols table) name hname
    refine ⟨by rw [hfind]; rfl, ?_⟩
    obtain ⟨t, ht⟩ := (addSymbol_defined charSigned (freeAllSymbols table) name scopeLevel
      type size offset varKind).1 hname
    refine ⟨t, ht, ?_⟩
    rcases addSymbol_some _ _ _ _ _ _ _ _ _ _ _ _ ht with h | h
    · exact absurd h.1 (by decide)
    · obtain ⟨_, _, _, ix', hix', ht'⟩ := h
      rw [findSymbol_at charSigned t name ix' hix', ht']
      simp [findChain]

/-- C24: in a table reached from `newSymbolTable()` by any calls of
`addSymbol`, `delScopeLevel` and `freeAllSymbols`, a symbol stored in bucket `i`
has `hash(name) = i`; a new table has this property, and `addSymbol` (whether
it returns 0 or -1), `delScopeLevel` and `freeAllSymbols` each keep it. -/
theorem bucket_placement (charSigned : Bool) (ops : List TableOp) (reached : SymbolTable)
    (hreach : runOps charSigned newSymbolTable ops = some reached)
    (i : Fin TABLESIZE) (s : Symbol) (hs : s ∈ reached i)
    (table table' : SymbolTable) (htable : BucketsOk charSigned table)
    (name : List Nat) (scopeLevel : Int) (type : DataType) (size : Nat) (offset : Int)
    (varKind : VariableKind) (mallocOk strdupOk : Bool) (code : Int)
    (hadd : addSymbol charSigned table name scopeLevel type size offset varKind
      mallocOk strdupOk = some (code, table'))
    (L : Int) :
    hash charSigned s.name = (i.val : Int) ∧
    BucketsOk charSigned newSymbolTable ∧
    BucketsOk charSigned table' ∧
    BucketsOk charSigned (delScopeLevel table L).2 ∧
    BucketsOk charSigned (freeAllSymbols table) := by
  refine ⟨bucketsOk_runOps charSigned ops _ _ (bucketsOk_new charSigned) hreach i s hs,
    bucketsOk_new charSigned, ?_, bucketsOk_del charSigned table L htable,
    bucketsOk_free charSigned table⟩
  refine bucketsOk_add charSigned table table'
    ⟨name, scopeLevel, type, size, offset, varKind, mallocOk, strdupOk⟩ htable ?_
  simp only [applyAdd, hadd]

theorem bucket_placement_witness :
    hash true [195, 122] = 61 ∧
    hash true (⟨[195, 122], 0, .T_INT, 0, 0, .V_GLOBAL⟩ : Symbol).name
      = ((⟨61, by decide⟩ : Fin TABLESIZE).val : Int) ∧
    BucketsOk true (delScopeLevel newSymbolTable 1).2 :=
  ⟨by decide,
   (bucket_placement true
      (sampleAdds.map TableOp.add
        ++ [TableOp.del 2, TableOp.add ⟨[195, 122], 0, .T_INT, 0, 0, .V_GLOBAL, true, true⟩])
      _ rfl ⟨61, by decide⟩ ⟨[195, 122], 0, .T_INT, 0, 0, .V_GLOBAL⟩ (by decide)
      newSymbolTable _ (bucketsOk_new true)
      [120] 0 .T_INT 0 0 .V_GLOBAL true true 0 rfl 1).1,
   (bucket_placement true
      (sampleAdds.map TableOp.add
        ++ [TableOp.del 2, TableOp.add ⟨[195, 122], 0, .T_INT, 0, 0, .V_GLOBAL, true, true⟩])
      _ rfl ⟨61, by decide⟩ ⟨[195, 122], 0, .T_INT, 0, 0, .V_GLOBAL⟩ (by decide)
      newSymbolTable _ (bucketsOk_new true)
      [120] 0 .T_INT 0 0 .V_GLOBAL true true 0 rfl 1).2.2.2.1⟩

/-- C22: where plain `char` is signed, `hash` of the one-byte name `\xE9`
(character code 233) is -23 and `hash` of the two-byte name `\xC3\xA9` is -51,
neither a bucket index, while the sum of the character codes modulo 97 is 39
and 73; where plain `char` is unsigned `hash` returns 39 and 73. -/
theorem hash_signed_char :
    hash true [233] = -23 ∧
    hash true [195, 169] = -51 ∧
    ¬ (0 ≤ hash true [233]) ∧
    (233 : Nat) % 97 = 39 ∧
    (195 + 169 : Nat) % 97 = 73 ∧
    hash false [233] = 39 ∧
    hash false [195, 169] = 73 ∧
    hashSpec [233] = 39 := by
  decide

/-! ## The store of an assignment -/

/-- C25: an Assignment node writes the code of its right-hand side and then,
for a Global, `sw t0, <name>, t1`; for a GlobalArray, after the index code,
`sw t0, 0(t1)`; for a Local or Param of slot `i`, `sw a<i>, <8+4*i>(fp)`: the
register stored is the argument register `a<i>`, not `t0`. For `x = 5` with `x`
the local of slot 0 the text is `li t0, 5` then `sw a0, 8(fp)`, and no store of
`t0` occurs in it. -/
theorem genCode_assignment_store (valType : DataType) (ival : Int) (x : String)
    (strNeedsFreed : Int) (next child0 child1 child2 : ASTNode) (level lid : Int) :
    (genCodeFromASTree
        (.node .AST_ASSIGNMENT valType .V_GLOBAL ival (some x) strNeedsFreed next
          child0 child1 child2) level lid).1
      = levelPrefix level
          ++ (genCodeFromASTree child0 (level + 1) lid).1
          ++ "\n\tsw\tt0, " ++ x ++ ", t1"
          ++ (genCodeFromASTree next (level + 1)
                (genCodeFromASTree child0 (level + 1) lid).2).1 ∧
    (genCodeFromASTree
        (.node .AST_ASSIGNMENT valType .V_LOCAL ival (some x) strNeedsFreed next
          child0 child1 child2) level lid).1
      = levelPrefix level
          ++ (genCodeFromASTree child0 (level + 1) lid).1
          ++ "\n\tsw\ta" ++ fmtD ival ++ ", " ++ fmtD (frameOffset ival) ++ "(fp)"
          ++ (genCodeFromASTree next (level + 1)
                (genCodeFromASTree child0 (level + 1) lid).2).1 ∧
    (genCodeFromASTree
        (.node .AST_ASSIGNMENT valType .V_PARAM ival (some x) strNeedsFreed next
          child0 child1 child2) level lid).1
      = levelPrefix level
          ++ (genCodeFromASTree child0 (level + 1) lid).1
          ++ "\n\tsw\ta" ++ fmtD ival ++ ", " ++ fmtD (frameOffset ival) ++ "(fp)"
          ++ (genCodeFromASTree next (level + 1)
                (genCodeFromASTree child0 (level + 1) lid).2).1 ∧
    (genCodeFromASTree
        (.node .AST_ASSIGNMENT valType .V_GLARRAY ival (some x) strNeedsFreed next
          child0 child1 child2) level lid).1
      = levelPrefix level
          ++ (genCodeFromASTree child0 (level + 1) lid).1
          ++ "\n\taddi\tsp, sp, -4\n\tsw\tt0, 0(sp)\n"
          ++ (genCodeFromASTree child1 0 (genCodeFromASTree child0 (level + 1) lid).2).1
          ++ "\n\tslli\tt0, t0, 2"
          ++ "\n\tla\tt1, " ++ x
          ++ "\n\tadd\tt1, t1, t0"
          ++ "\n\tlw\tt0, 0(sp)"
          ++ "\n\taddi\tsp, sp, 4"
          ++ "\n\tsw\tt0, 0(t1)"
          ++ "\n# array ref\n"
          ++ (genCodeFromASTree next (level + 1)
                (genCodeFromASTree child1 0
                  (genCodeFromASTree child0 (level + 1) lid).2).2).1 ∧
    (genCodeFromASTree sampleLocalAssign 0 lidStart).1
      = "   \n\tli\tt0, 5\n" ++ "\n\tsw\ta0, 8(fp)" ∧
    occurrences "sw\tt0" (genCodeFromASTree sampleLocalAssign 0 lidStart).1 = 0 := by
  refine ⟨?_, ?_, ?_, ?_, by decide, by decide⟩
  · simp [genCodeFromASTree, fmtS, String.append_assoc]
  · simp [genCodeFromASTree, frameOffset, String.append_assoc]
  · simp [genCodeFromASTree, frameOffset, String.append_assoc]
  · simp [genCodeFromASTree, fmtS, String.append_assoc]

theorem countSub_mono (pat rest : List Char) :
    ∀ text : List Char, countSub pat text ≤ countSub pat (text ++ rest) := by
  intro text
  induction text with
  | nil => exact Nat.zero_le _
  | cons c t ih =>
    rw [List.cons_append]
    simp only [countSub]
    by_cases h : pat.isPrefixOf (c :: t) = true
    · have h' : pat.isPrefixOf (c :: (t ++ rest)) = true := by
        rw [List.isPrefixOf_iff_prefix] at h ⊢
        have := h.trans (List.prefix_append (c :: t) rest)
        simpa using this
      rw [if_pos h, if_pos h']
      omega
    · rw [if_neg h]
      split_ifs <;> omega

theorem countSub_absent (pat : List Char) (c : Char) (hc : c ∈ pat) :
    ∀ text : List Char, c ∉ text → countSub pat text = 0 := by
  intro text
  induction text with
  | nil => intro _; rfl
  | cons x t ih =>
    intro hn
    have hx : ¬ (pat.isPrefixOf (x :: t) = true) := by
      intro h
      rw [List.isPrefixOf_iff_prefix] at h
      exact hn (h.subset hc)
    simp only [countSub, if_neg hx, Nat.zero_add]
    exact ih (fun h => hn (List.mem_cons_of_mem _ h))

theorem isPrefixOf_quiet (pat : List Char) :
    ∀ text : List Char, endsNonBlank pat = true → '\n' ∉ pat → quiet text = true →
      pat.isPrefixOf text = false := by
  induction pat with
  | nil => intro text h _ _; simp [endsNonBlank] at h
  | cons c cs ih =>
    intro text hend hnl hq
    cases text with
    | nil => rfl
    | cons y rest =>
      simp only [List.isPrefixOf, Bool.and_eq_false_imp, beq_iff_eq]
      intro hcy
      subst hcy
      have hc : c ≠ '\n' := fun h => hnl (h ▸ List.mem_cons_self _ _)
      simp only [quiet, Bool.or_eq_true, beq_iff_eq, Bool.and_eq_true] at hq
      rcases hq with h | ⟨h1, h2⟩
      · exact absurd h hc
      · subst h1
        cases cs with
        | nil => simp [endsNonBlank] at hend
        | cons d ds =>
          exact ih rest (by simpa [endsNonBlank] using hend)
            (fun h => hnl (List.mem_cons_of_mem _ h)) h2

theorem isPrefixOf_short_quiet (text : List Char) :
    ∀ pat rest : List Char, endsNonBlank pat = true → '\n' ∉ pat → quiet rest = true →
      text.length < pat.length → pat.isPrefixOf (text ++ rest) = false := by
  induction text with
  | nil =>
    intro pat rest hend hnl hq _
    exact isPrefixOf_quiet pat rest hend hnl hq
  | cons x t ih =>
    intro pat rest hend hnl hq hlen
    cases pat with
    | nil => simp at hlen
    | cons c cs =>
      have hlen' : t.length < cs.length := by simpa using hlen
      cases cs with
      | nil => simp at hlen'
      | cons d ds =>
        rw [List.cons_append]
        simp only [List.isPrefixOf, Bool.and_eq_false_imp, beq_iff_eq]
        intro _
        have := ih (d :: ds) rest (by simpa [endsNonBlank] using hend)
          (fun h => hnl (List.mem_cons_of_mem _ h)) hq hlen'
        simpa [List.isPrefixOf] using this

theorem countSub_quiet (pat rest : List Char) (hend : endsNonBlank pat = true)
    (hnl : '\n' ∉ pat) (hq : quiet rest = true) :
    ∀ text : List Char, countSub pat (text ++ rest) = countSub pat text + countSub pat rest := by
  intro text
  induction text with
  | nil => simp [countSub]
  | cons c t ih =>
    have hhead : pat.isPrefixOf ((c :: t) ++ rest) = pat.isPrefixOf (c :: t) := by
      by_cases hlen : (c :: t).length < pat.length
      · rw [isPrefixOf_short_quiet (c :: t) pat rest hend hnl hq hlen,
          isPrefixOf_false_of_length_lt pat (c :: t) hlen]
      · exact isPrefixOf_append_of_length_le pat (c :: t) rest (by omega)
    rw [List.cons_append] at hhead ⊢
    simp only [countSub, hhead, ih]
    omega

theorem quiet_blanks (blanks rest : List Char) (hb : ∀ c ∈ blanks, c = ' ')
    (hr : quiet rest = true) : quiet (blanks ++ rest) = true := by
  induction blanks with
  | nil => exact hr
  | cons c more ih =>
    have hc : c = ' ' := hb c (List.mem_cons_self _ _)
    subst hc
    rw [List.cons_append]
    simp only [quiet, beq_self_eq_true, Bool.true_and, Bool.or_eq_true, beq_iff_eq]
    right
    exact ih (fun d hd => hb d (List.mem_cons_of_mem _ hd))

theorem quiet_prefix (text rest : List Char) (h : quiet (text ++ rest) = true) :
    quiet text = true := by
  induction text with
  | nil => rfl
  | cons c t ih =>
    rw [List.cons_append] at h
    simp only [quiet, Bool.or_eq_true, beq_iff_eq, Bool.and_eq_true] at h ⊢
    rcases h with h | ⟨h1, h2⟩
    · exact Or.inl h
    · exact Or.inr ⟨h1, ih h2⟩

theorem balance_append (push pop A C : List Char) (d s : Nat)
    (hend : endsNonBlank push = true) (hnl : '\n' ∉ push)
    (hend' : endsNonBlank pop = true) (hnl' : '\n' ∉ pop)
    (hC : quiet C = true)
    (hA : ∀ X Y : List Char, A = X ++ Y → countSub pop X ≤ countSub push X + d)
    (htot : countSub pop A + s = countSub push A + d)
    (hCb : ∀ X Y : List Char, C = X ++ Y → countSub pop X ≤ countSub push X + s) :
    ∀ X Y : List Char, A ++ C = X ++ Y → countSub pop X ≤ countSub push X + d := by
  intro X Y h
  rcases List.append_eq_append_iff.mp h with ⟨a', hX, hC'⟩ | ⟨c', hA', _⟩
  · have hq : quiet a' = true := quiet_prefix a' Y (hC' ▸ hC)
    rw [hX, countSub_quiet pop a' hend' hnl' hq, countSub_quiet push a' hend hnl hq]
    have := hCb a' Y hC'
    omega
  · exact hA X c' hA'

theorem countSub_blanks (a : Char) (pat blanks : List Char) (ha : a ≠ ' ')
    (hb : ∀ c ∈ blanks, c = ' ') : countSub (a :: pat) blanks = 0 := by
  have h := countSub_skip a pat blanks [] (fun c hc hca => ha (hca ▸ hb c hc))
  rw [List.append_nil] at h
  rw [h]
  rfl

theorem balance_of_zero (push pop text : List Char) (h : countSub pop text = 0) :
    ∀ X Y : List Char, text = X ++ Y → countSub pop X ≤ countSub push X + 0 := by
  intro X Y hxy
  have := countSub_mono pop Y X
  rw [← hxy, h] at this
  omega

theorem balance_weaken (push pop text : List Char) (d : Nat)
    (h : ∀ X Y : List Char, text = X ++ Y → countSub pop X ≤ countSub push X + 0) :
    ∀ X Y : List Char, text = X ++ Y → countSub pop X ≤ countSub push X + d := by
  intro X Y hxy
  have := h X Y hxy
  omega

theorem balance_of_le (push pop text : List Char) (d : Nat) (h : countSub pop text ≤ d) :
    ∀ X Y : List Char, text = X ++ Y → countSub pop X ≤ countSub push X + d := by
  intro X Y hxy
  have := countSub_mono pop Y X
  rw [← hxy] at this
  omega

theorem expression_compose (a : Char) (p q : List Char) (B TL PUSHP TR POP : List Char)
    (nl nr : Nat) (ha : a ≠ ' ')
    (hend : endsNonBlank (a :: p) = true) (hnl : '\n' ∉ a :: p)
    (hend' : endsNonBlank (a :: q) = true) (hnl' : '\n' ∉ a :: q)
    (hB : ∀ c ∈ B, c = ' ')
    (hLq : ∀ Z, quiet (TL ++ Z) = true)
    (hLp : countSub (a :: p) TL = nl) (hLpop : countSub (a :: q) TL = nl)
    (hLb : ∀ X Y : List Char, TL = X ++ Y → countSub (a :: q) X ≤ countSub (a :: p) X + 0)
    (hRq : ∀ Z, quiet (TR ++ Z) = true)
    (hRp : countSub (a :: p) TR = nr) (hRpop : countSub (a :: q) TR = nr)
    (hRb : ∀ X Y : List Char, TR = X ++ Y → countSub (a :: q) X ≤ countSub (a :: p) X + 0)
    (hPq : ∀ Z, quiet (PUSHP ++ Z) = true) (hOq : quiet POP = true)
    (hP1 : countSub (a :: p) PUSHP = 1) (hP0 : countSub (a :: q) PUSHP = 0)
    (hO0 : countSub (a :: p) POP = 0) (hO1 : countSub (a :: q) POP = 1) :
    (∀ Z, quiet ((B ++ (TL ++ (PUSHP ++ (TR ++ POP)))) ++ Z) = true) ∧
    countSub (a :: p) (B ++ (TL ++ (PUSHP ++ (TR ++ POP)))) = nl + nr + 1 ∧
    countSub (a :: q) (B ++ (TL ++ (PUSHP ++ (TR ++ POP)))) = nl + nr + 1 ∧
    (∀ X Y : List Char, B ++ (TL ++ (PUSHP ++ (TR ++ POP))) = X ++ Y →
      countSub (a :: q) X ≤ countSub (a :: p) X + 0) := by
  have q3 : quiet (TR ++ POP) = true := hRq POP
  have q2 : quiet (PUSHP ++ (TR ++ POP)) = true := hPq _
  have q1 : quiet (TL ++ (PUSHP ++ (TR ++ POP))) = true := hLq _
  have cp3 : countSub (a :: p) (TR ++ POP) = nr := by
    rw [countSub_quiet _ _ hend hnl hOq, hRp, hO0]; rfl
  have cq3 : countSub (a :: q) (TR ++ POP) = nr + 1 := by
    rw [countSub_quiet _ _ hend' hnl' hOq, hRpop, hO1]
  have cp2 : countSub (a :: p) (PUSHP ++ (TR ++ POP)) = nr + 1 := by
    rw [countSub_quiet _ _ hend hnl q3, hP1, cp3]; omega
  have cq2 : countSub (a :: q) (PUSHP ++ (TR ++ POP)) = nr + 1 := by
    rw [countSub_quiet _ _ hend' hnl' q3, hP0, cq3]; omega
  have cp1 : countSub (a :: p) (TL ++ (PUSHP ++ (TR ++ POP))) = nl + nr + 1 := by
    rw [countSub_quiet _ _ hend hnl q2, hLp, cp2]; omega
  have cq1 : countSub (a :: q) (TL ++ (PUSHP ++ (TR ++ POP))) = nl + nr + 1 := by
    rw [countSub_quiet _ _ hend' hnl' q2, hLpop, cq2]; omega
  have hBp : countSub (a :: p) B = 0 := countSub_blanks a p B ha hB
  have hBq : countSub (a :: q) B = 0 := countSub_blanks a q B ha hB
  have b3 : ∀ X Y : List Char, TR ++ POP = X ++ Y →
      countSub (a :: q) X ≤ countSub (a :: p) X + 1 :=
    balance_append (a :: p) (a :: q) TR POP 1 1 hend hnl hend' hnl' hOq
      (balance_weaken _ _ _ 1 hRb) (by rw [hRp, hRpop])
      (balance_of_le _ _ _ 1 (by rw [hO1]))
  have b2 : ∀ X Y : List Char, PUSHP ++ (TR ++ POP) = X ++ Y →
      countSub (a :: q) X ≤ countSub (a :: p) X + 0 :=
    balance_append (a :: p) (a :: q) PUSHP (TR ++ POP) 0 1 hend hnl hend' hnl' q3
      (balance_of_zero _ _ _ hP0) (by rw [hP0, hP1]) b3
  have b1 : ∀ X Y : List Char, TL ++ (PUSHP ++ (TR ++ POP)) = X ++ Y →
      countSub (a :: q) X ≤ countSub (a :: p) X + 0 :=
    balance_append (a :: p) (a :: q) TL _ 0 0 hend hnl hend' hnl' q2
      hLb (by rw [hLp, hLpop]) b2
  refine ⟨?_, ?_, ?_, ?_⟩
  · intro Z
    rw [List.append_assoc]
    refine quiet_blanks B _ hB ?_
    rw [List.append_assoc]
    exact hLq _
  · rw [countSub_quiet _ _ hend hnl q1, hBp, cp1]; omega
  · rw [countSub_quiet _ _ hend' hnl' q1, hBq, cq1]; omega
  · exact balance_append (a :: p) (a :: q) B _ 0 0 hend hnl hend' hnl' q1
      (balance_of_zero _ _ _ hBq) (by rw [hBp, hBq]) b1

theorem text_const (varKind : VariableKind) (ival : Int) (strval : Option String)
    (strNeedsFreed : Int) (child0 child1 child2 : ASTNode) (level lid : Int) :
    (genCodeFromASTree
        (.node .AST_CONSTANT .T_INT varKind ival strval strNeedsFreed .null child0 child1 child2)
        level lid).1.data
      = (levelPrefix level).data
          ++ ("\n\tli\tt0, ".data ++ ((fmtD ival).data ++ ['\n'])) := by
  simp only [genCodeFromASTree, String.data_append, List.append_assoc]
  simp

theorem text_varref_global (valType : DataType) (ival : Int) (strval : Option String)
    (strNeedsFreed : Int) (child0 child1 child2 : ASTNode) (level lid : Int) :
    (genCodeFromASTree
        (.node .AST_VARREF valType .V_GLOBAL ival strval strNeedsFreed .null child0 child1 child2)
        level lid).1.data
      = (levelPrefix level).data ++ ("\n\tlw\tt0, ".data ++ (fmtS strval).data) := by
  simp [genCodeFromASTree, String.data_append, List.append_assoc]

theorem text_varref_slot (valType : DataType) (varKind : VariableKind)
    (hk : varKind = .V_PARAM ∨ varKind = .V_LOCAL) (ival : Int) (strval : Option String)
    (strNeedsFreed : Int) (child0 child1 child2 : ASTNode) (level lid : Int) :
    (genCodeFromASTree
        (.node .AST_VARREF valType varKind ival strval strNeedsFreed .null child0 child1 child2)
        level lid).1.data
      = (levelPrefix level).data
          ++ ("\n\tlw\tt0, ".data ++ ((fmtD (frameOffset ival)).data ++ "(fp)".data)) := by
  rcases hk with h | h <;> subst h <;>
    simp [genCodeFromASTree, String.data_append, List.append_assoc]

theorem text_expression (valType : DataType) (varKind : VariableKind) (ival : Int)
    (strval : Option String) (strNeedsFreed : Int) (child0 child1 child2 : ASTNode)
    (level lid : Int) :
    (genCodeFromASTree
        (.node .AST_EXPRESSION valType varKind ival strval strNeedsFreed .null
          child0 child1 child2) level lid).1.data
      = (levelPrefix level).data
          ++ ((genCodeFromASTree child0 (level + 1) lid).1.data
            ++ ("\n\taddi\tsp, sp, -4\n\tsw\tt0, 0(sp)\t".data
              ++ ((genCodeFromASTree child1 (level + 1)
                    (genCodeFromASTree child0 (level + 1) lid).2).1.data
                ++ (if ival = charCode '-' then
                      "\n\tlw\tt1, 0(sp)\n\taddi\tsp, sp, 4\n\tsub\tt0, t1, t0"
                    else if ival = charCode '+' then
                      "\n\tlw\tt1, 0(sp)\n\taddi\tsp, sp, 4\n\tadd\tt0, t0, t1"
                    else "Unknown Constant\n").data))) := by
  simp only [genCodeFromASTree, String.data_append, List.append_assoc]
  simp

theorem leaf_facts (a : Char) (p q text : List Char)
    (hq : ∀ Z, quiet (text ++ Z) = true)
    (hp0 : countSub (a :: p) text = 0) (hq0 : countSub (a :: q) text = 0) :
    (∀ Z, quiet (text ++ Z) = true) ∧
    countSub (a :: p) text = 0 ∧
    countSub (a :: q) text = 0 ∧
    (∀ X Y : List Char, text = X ++ Y → countSub (a :: q) X ≤ countSub (a :: p) X + 0) :=
  ⟨hq, hp0, hq0, balance_of_zero _ _ _ hq0⟩

theorem leaf_count (a : Char) (p B F D E : List Char) (ha : a ≠ ' ')
    (hB : ∀ c ∈ B, c = ' ') (hF : noStraddle (a :: p) F = true)
    (hF0 : countSub (a :: p) F = 0) (hD : ∀ c ∈ D, c ≠ a) (hE : countSub (a :: p) E = 0) :
    countSub (a :: p) (B ++ (F ++ (D ++ E))) = 0 := by
  rw [countSub_skip a p B _ (fun c hc hca => ha (hca ▸ hB c hc)),
    countSub_append _ _ F hF, countSub_skip a p D _ hD, hF0, hE]

theorem exprTree_text (tree : ASTNode) :
    isExprTree tree = true → ∀ (level lid : Int),
      (∀ Z, quiet ((genCodeFromASTree tree level lid).1.data ++ Z) = true) ∧
      countSub ('a' :: "ddi\tsp, sp, -4".data) (genCodeFromASTree tree level lid).1.data
        = exprNodes tree ∧
      countSub ('a' :: "ddi\tsp, sp, 4".data) (genCodeFromASTree tree level lid).1.data
        = exprNodes tree ∧
      (∀ X Y : List Char, (genCodeFromASTree tree level lid).1.data = X ++ Y →
        countSub ('a' :: "ddi\tsp, sp, 4".data) X
          ≤ countSub ('a' :: "ddi\tsp, sp, -4".data) X + 0) := by
  induction tree with
  | null => intro h; simp [isExprTree] at h
  | node type valType varKind ival strval strNeedsFreed next child0 child1 child2
      ihn ih0 ih1 ih2 =>
    intro h level lid
    simp only [isExprTree, Bool.and_eq_true, decide_eq_true_eq] at h
    obtain ⟨hnext, hty⟩ := h
    subst hnext
    have hB := levelPrefix_blank level
    cases type
    case AST_CONSTANT =>
      have hv : valType = .T_INT := by simpa using hty
      subst hv
      rw [text_const]
      refine leaf_facts 'a' _ _ _ ?_ ?_ ?_
      · intro Z
        rw [List.append_assoc]
        exact quiet_blanks _ _ hB rfl
      · exact leaf_count 'a' _ _ _ _ _ (by decide) hB (by decide) (by decide)
          (fmtD_ne ival 'a' (by decide)) (by decide)
      · exact leaf_count 'a' _ _ _ _ _ (by decide) hB (by decide) (by decide)
          (fmtD_ne ival 'a' (by decide)) (by decide)
    case AST_VARREF =>
      simp only [Bool.and_eq_true, decide_eq_true_eq, List.all_eq_true] at hty
      obtain ⟨hkind, hname⟩ := hty
      have htab : '\t' ∉ (fmtS strval).data := fun hmem => hname _ hmem rfl
      cases varKind
      case V_GLARRAY => exact absurd rfl hkind
      case V_GLOBAL =>
        rw [text_varref_global]
        refine leaf_facts 'a' _ _ _ ?_ ?_ ?_
        · intro Z
          rw [List.append_assoc]
          exact quiet_blanks _ _ hB rfl
        · rw [countSub_skip 'a' _ _ _ (fun c hc hca => absurd (hca ▸ hB c hc) (by decide)),
            countSub_append _ _ _ (by decide),
            countSub_absent _ '\t' (by decide) _ htab]
          decide
        · rw [countSub_skip 'a' _ _ _ (fun c hc hca => absurd (hca ▸ hB c hc) (by decide)),
            countSub_append _ _ _ (by decide),
            countSub_absent _ '\t' (by decide) _ htab]
          decide
      case V_LOCAL =>
        rw [text_varref_slot _ _ (Or.inr rfl)]
        refine leaf_facts 'a' _ _ _ ?_ ?_ ?_
        · intro Z
          rw [List.append_assoc]
          exact quiet_blanks _ _ hB rfl
        · exact leaf_count 'a' _ _ _ _ _ (by decide) hB (by decide) (by decide)
            (fmtD_ne _ 'a' (by decide)) (by decide)
        · exact leaf_count 'a' _ _ _ _ _ (by decide) hB (by decide) (by decide)
            (fmtD_ne _ 'a' (by decide)) (by decide)
      case V_PARAM =>
        rw [text_varref_slot _ _ (Or.inl rfl)]
        refine leaf_facts 'a' _ _ _ ?_ ?_ ?_
        · intro Z
          rw [List.append_assoc]
          exact quiet_blanks _ _ hB rfl
        · exact leaf_count 'a' _ _ _ _ _ (by decide) hB (by decide) (by decide)
            (fmtD_ne _ 'a' (by decide)) (by decide)
        · exact leaf_count 'a' _ _ _ _ _ (by decide) hB (by decide) (by decide)
            (fmtD_ne _ 'a' (by decide)) (by decide)
    case AST_EXPRESSION =>
      simp only [Bool.and_eq_true, decide_eq_true_eq] at hty
      obtain ⟨⟨hop, h0⟩, h1⟩ := hty
      obtain ⟨l1, l2, l3, l4⟩ := ih0 h0 (level + 1) lid
      obtain ⟨r1, r2, r3, r4⟩ := ih1 h1 (level + 1)
        (genCodeFromASTree child0 (level + 1) lid).2
      rw [text_expression]
      have hnodes : exprNodes (.node .AST_EXPRESSION valType varKind ival strval strNeedsFreed
          .null child0 child1 child2) = exprNodes child0 + exprNodes child1 + 1 := rfl
      rw [hnodes]
      rcases hop with hop | hop <;> subst hop
      · exact expression_compose 'a' _ _ _ _ _ _ _ _ _ (by decide) (by decide) (by decide)
          (by decide) (by decide) hB l1 l2 l3 l4 r1 r2 r3 r4 (fun Z => rfl) (by decide)
          (by decide) (by decide) (by decide) (by decide)
      · exact expression_compose 'a' _ _ _ _ _ _ _ _ _ (by decide) (by decide) (by decide)
          (by decide) (by decide) hB l1 l2 l3 l4 r1 r2 r3 r4 (fun Z => rfl) (by decide)
          (by decide) (by decide) (by decide) (by decide)
    all_goals exact absurd hty Bool.false_ne_true

/-- C26: in the text written for an expression tree (Int constants, references
to variables that are not arrays, Expression nodes with `+` or `-`) the push
instruction `addi sp, sp, -4` and the pop instruction `addi sp, sp, 4` each
occur once per Expression node, so equally often; in every initial part of the
text the pops are at most as many as the pushes; and an Expression node with
`-` writes, after the pop into `t1` of the left operand, `sub t0, t1, t0`. -/
theorem exprTree_push_pop (tree : ASTNode) (h : isExprTree tree = true) (level lid : Int)
    (valType : DataType) (varKind : VariableKind) (strval : Option String)
    (strNeedsFreed : Int) (next child0 child1 child2 : ASTNode) :
    occurrences pushInstr (genCodeFromASTree tree level lid).1 = exprNodes tree ∧
    occurrences popInstr (genCodeFromASTree tree level lid).1 = exprNodes tree ∧
    occurrences pushInstr (genCodeFromASTree tree level lid).1
      = occurrences popInstr (genCodeFromASTree tree level lid).1 ∧
    (∀ X Y : List Char, (genCodeFromASTree tree level lid).1.data = X ++ Y →
      countSub popInstr.data X ≤ countSub pushInstr.data X) ∧
    genCodeFromASTree
        (.node .AST_EXPRESSION valType varKind (charCode '-') strval strNeedsFreed next
          child0 child1 child2) level lid
      = (levelPrefix level
          ++ (genCodeFromASTree child0 (level + 1) lid).1
          ++ "\n\taddi\tsp, sp, -4\n\tsw\tt0, 0(sp)\t"
          ++ (genCodeFromASTree child1 (level + 1) (genCodeFromASTree child0 (level + 1) lid).2).1
          ++ "\n\tlw\tt1, 0(sp)\n\taddi\tsp, sp, 4\n\tsub\tt0, t1, t0"
          ++ (genCodeFromASTree next (level + 1)
                (genCodeFromASTree child1 (level + 1)
                  (genCodeFromASTree child0 (level + 1) lid).2).2).1,
         (genCodeFromASTree next (level + 1)
                (genCodeFromASTree child1 (level + 1)
                  (genCodeFromASTree child0 (level + 1) lid).2).2).2) := by
  obtain ⟨_, h2, h3, h4⟩ := exprTree_text tree h level lid
  have hp : occurrences pushInstr (genCodeFromASTree tree level lid).1 = exprNodes tree := h2
  have hq : occurrences popInstr (genCodeFromASTree tree level lid).1 = exprNodes tree := h3
  refine ⟨hp, hq, hp.trans hq.symm, ?_, ?_⟩
  · intro X Y hXY
    exact h4 X Y hXY
  · simp only [genCodeFromASTree, String.append_assoc]
    simp

set_option maxRecDepth 100000 in
theorem exprTree_push_pop_witness :
    isExprTree sampleExpr = true ∧
    exprNodes sampleExpr = 2 ∧
    occurrences pushInstr (genCodeFromASTree sampleExpr 0 lidStart).1 = exprNodes sampleExpr ∧
    occurrences popInstr (genCodeFromASTree sampleExpr 0 lidStart).1 = exprNodes sampleExpr ∧
    occurrences "sub\tt0, t1, t0" (genCodeFromASTree sampleExpr 0 lidStart).1 = 1 :=
  ⟨by decide, by decide,
   (exprTree_push_pop sampleExpr (by decide) 0 lidStart .T_INT .V_GLOBAL none 0
      .null .null .null .null).1,
   (exprTree_push_pop sampleExpr (by decide) 0 lidStart .T_INT .V_GLOBAL none 0
      .null .null .null .null).2.1,
   by decide⟩

end Compiler
